import Mathlib

/-!
Verification of the fixed-width catalog parser/validator/normalizer
(`download.py`): a shallow embedding of its data model and line-processing
pipeline, with theorems checking the specified properties.

Modelling conventions:
* Python strings are Lean `String`s; the per-character operations are
  defined on `List Char` and lifted.
* Python `float(...)` is modelled exactly on its accepting grammar, with
  finite values represented as exact rationals (`ℚ`); the catalog's range
  checks compare decimal literals far from any binary-rounding boundary,
  so the rational model agrees with IEEE doubles on every input used here.
  A failed conversion (Python `ValueError`) is `none`, and a raised
  exception anywhere makes the surrounding computation return `.error ()`.
* Python `str.upper`/`str.lower` are modelled on the character ranges that
  can reach them in this program (ASCII, Greek, micro sign, sharp s);
  all other characters map to themselves.
* The regular-expression validators are embedded as a regex AST with a
  Brzozowski-derivative matcher; `re.fullmatch` is `Regex.fullmatch`.
-/

set_option autoImplicit false
set_option maxRecDepth 100000

namespace IauStarnames

/-! ### Python-style string primitives -/

/-- The character set of the strip calls in the source: `"\r\n\t "`. -/
def wsChars : List Char := ['\r', '\n', '\t', ' ']

def isWs (c : Char) : Bool := wsChars.contains c

/-- Strip characters satisfying `p` from both ends of a character list. -/
def stripList (p : Char → Bool) (l : List Char) : List Char :=
  ((l.dropWhile p).reverse.dropWhile p).reverse

/-- Python `s.strip("\r\n\t ")`. -/
def pyStrip (s : String) : String := ⟨stripList isWs s.data⟩

/-- Python `s.rstrip("\r\n\t ")`. -/
def pyRstrip (s : String) : String := ⟨(s.data.reverse.dropWhile isWs).reverse⟩

/-- Python `s.strip(" ")`. -/
def pyStripSpaces (s : String) : String := ⟨stripList (fun c => c == ' ') s.data⟩

/-- Python slice `a[start - 1 : stop]` (1-indexed inclusive column span). -/
def pySlice (s : String) (start stop : Nat) : String :=
  ⟨(s.data.drop (start - 1)).take (stop - (start - 1))⟩

/-- Python `s.ljust(w, " ")`. -/
def pyLjust (s : String) (w : Nat) : String :=
  ⟨s.data ++ List.replicate (w - s.data.length) ' '⟩

/-- Python `s.rjust(w, " ")`. -/
def pyRjust (s : String) (w : Nat) : String :=
  ⟨List.replicate (w - s.data.length) ' ' ++ s.data⟩

/-! ### Regular expressions (Brzozowski derivatives) -/

inductive Regex : Type
  | fail : Regex
  | eps : Regex
  | pred (p : Char → Bool) : Regex
  | cat (r₁ r₂ : Regex) : Regex
  | alt (r₁ r₂ : Regex) : Regex
  | star (r : Regex) : Regex

def Regex.nullable : Regex → Bool
  | .fail => false
  | .eps => true
  | .pred _ => false
  | .cat r₁ r₂ => r₁.nullable && r₂.nullable
  | .alt r₁ r₂ => r₁.nullable || r₂.nullable
  | .star _ => true

def Regex.deriv : Regex → Char → Regex
  | .fail, _ => .fail
  | .eps, _ => .fail
  | .pred p, c => if p c then .eps else .fail
  | .cat r₁ r₂, c =>
      if r₁.nullable then .alt (.cat (r₁.deriv c) r₂) (r₂.deriv c)
      else .cat (r₁.deriv c) r₂
  | .alt r₁ r₂, c => .alt (r₁.deriv c) (r₂.deriv c)
  | .star r, c => .cat (r.deriv c) (.star r)

def Regex.matchList : Regex → List Char → Bool
  | r, [] => r.nullable
  | r, c :: rest => (r.deriv c).matchList rest

/-- Python `re.compile(pat).fullmatch(s)` viewed as a Boolean. -/
def Regex.fullmatch (r : Regex) (s : String) : Bool := r.matchList s.data

def Regex.chr (c : Char) : Regex := .pred (fun d => d == c)

def Regex.range (a b : Char) : Regex := .pred (fun d => a ≤ d && d ≤ b)

def Regex.oneOf (l : List Char) : Regex := .pred (fun d => l.contains d)

def Regex.ofList : List Char → Regex
  | [] => .eps
  | c :: rest => .cat (Regex.chr c) (Regex.ofList rest)

/-- A regex matching the literal string `s`. -/
def Regex.strRE (s : String) : Regex := Regex.ofList s.data

/-- `r?` -/
def Regex.opt (r : Regex) : Regex := .alt .eps r

/-- `r+` -/
def Regex.plus (r : Regex) : Regex := .cat r (.star r)

/-- `r{n}` -/
def Regex.rep (r : Regex) : Nat → Regex
  | 0 => .eps
  | n + 1 => .cat r (Regex.rep r n)

/-- `r{0,n}` -/
def Regex.upTo (r : Regex) : Nat → Regex
  | 0 => .eps
  | n + 1 => .alt .eps (.cat r (Regex.upTo r n))

/-- `\d` -/
def digitRE : Regex := Regex.range ('0') ('9')

/-- `.` (any character except a newline). -/
def dotRE : Regex := .pred (fun c => c != '\n')

/-- `[A-Za-z]` -/
def latinRE : Regex :=
  .pred (fun c => ('A' ≤ c && c ≤ 'Z') || ('a' ≤ c && c ≤ 'z'))

/-- `[A-Z][a-z']+( [A-Z][a-z]+)?` -/
def nameAsciiRE : Regex :=
  .cat (Regex.range ('A') ('Z'))
    (.cat (Regex.plus (.pred (fun c => ('a' ≤ c && c ≤ 'z') || c == Char.ofNat 39)))
      (Regex.opt (.cat (Regex.chr (' '))
        (.cat (Regex.range ('A') ('Z')) (Regex.plus (Regex.range ('a') ('z')))))))

/-- `.*` -/
def nameDiacriticsRE : Regex := .star dotRE

/-- `((HR |HD |GJ |WASP-|HAT-P-|XO-|HIP |TrES-|BD[+-]\d{1,2} )\d{1,6}|PSR .+)` -/
def designationRE : Regex :=
  .alt
    (.cat
      (.alt (Regex.strRE ("HR "))
      (.alt (Regex.strRE ("HD "))
      (.alt (Regex.strRE ("GJ "))
      (.alt (Regex.strRE ("WASP-"))
      (.alt (Regex.strRE ("HAT-P-"))
      (.alt (Regex.strRE ("XO-"))
      (.alt (Regex.strRE ("HIP "))
      (.alt (Regex.strRE ("TrES-"))
        (.cat (Regex.strRE ("BD"))
          (.cat (Regex.oneOf ['+', '-'])
            (.cat (.cat digitRE (digitRE.upTo 1)) (Regex.chr (' ')))))))))))))
      (.cat digitRE (digitRE.upTo 5)))
    (.cat (Regex.strRE ("PSR ")) (Regex.plus dotRE))

/-- `([A-Za-z]{0,3}\d{0,4}|_)` -/
def idRE : Regex := .alt (.cat (latinRE.upTo 3) (digitRE.upTo 4)) (Regex.chr ('_'))

/-- `[α-ωb-zAY]` -/
def idDiacClassRE : Regex :=
  .pred (fun c => ('α' ≤ c && c ≤ 'ω') || ('b' ≤ c && c ≤ 'z') || c == 'A' || c == 'Y')

/-- `(V\d+|[α-ωb-zAY]{0,3}\d{0,4}|_)` -/
def idDiacriticsRE : Regex :=
  .alt (.cat (Regex.chr ('V')) (Regex.plus digitRE))
    (.alt (.cat (idDiacClassRE.upTo 3) (digitRE.upTo 4)) (Regex.chr ('_')))

/-- `(_|[A-Z][A-Za-z]{2})` -/
def conRE : Regex := .alt (Regex.chr ('_')) (.cat (Regex.range ('A') ('Z')) (latinRE.rep 2))

/-- `(_|A|Aa|Aa1|C|Ca|B)` -/
def hashRE : Regex :=
  .alt (Regex.chr ('_'))
    (.alt (Regex.strRE ("A"))
    (.alt (Regex.strRE ("Aa"))
    (.alt (Regex.strRE ("Aa1"))
    (.alt (Regex.strRE ("C"))
    (.alt (Regex.strRE ("Ca")) (Regex.strRE ("B")))))))

/-- `(_|(\d{5}[-+]\d{4}))` -/
def wdsRE : Regex :=
  .alt (Regex.chr ('_'))
    (.cat (digitRE.rep 5) (.cat (Regex.oneOf ['-', '+']) (digitRE.rep 4)))

/-- `[GV_]` -/
def bndRE : Regex := Regex.oneOf ['G', 'V', '_']

/-- `(\d{1,6}|_)` -/
def hipRE : Regex := .alt (.cat digitRE (digitRE.upTo 5)) (Regex.chr ('_'))

/-- `(\d{1,6}|_)` -/
def hdRE : Regex := .alt (.cat digitRE (digitRE.upTo 5)) (Regex.chr ('_'))

/-- `20[12]\d-(1[0-2]|0[1-9])-(3[01]|[12]\d|0[1-9])` -/
def dateRE : Regex :=
  .cat (Regex.strRE ("20"))
  (.cat (Regex.oneOf ['1', '2'])
  (.cat digitRE
  (.cat (Regex.chr ('-'))
  (.cat (.alt (.cat (Regex.chr ('1')) (Regex.oneOf ['0', '1', '2']))
              (.cat (Regex.chr ('0')) (Regex.range ('1') ('9'))))
  (.cat (Regex.chr ('-'))
    (.alt (.cat (Regex.chr ('3')) (Regex.oneOf ['0', '1']))
    (.alt (.cat (Regex.oneOf ['1', '2']) digitRE)
          (.cat (Regex.chr ('0')) (Regex.range ('1') ('9'))))))))))

/-- `[*@]?` -/
def notesRE : Regex := Regex.opt (Regex.oneOf ['*', '@'])

/-! ### Python float conversion -/

/-- Result of a successful Python `float(...)` conversion; finite values
are modelled as exact rationals. -/
inductive PyFloat : Type
  | finite (q : ℚ) : PyFloat
  | inf : PyFloat
  | ninf : PyFloat
  | nan : PyFloat
deriving DecidableEq

/-- Python `<` on floats (`nan` compares false with everything). -/
def PyFloat.ltB : PyFloat → PyFloat → Bool
  | .finite a, .finite b => Rat.blt a b
  | .finite _, .inf => true
  | .ninf, .finite _ => true
  | .ninf, .inf => true
  | _, _ => false

/-- Python `<=` on floats (`nan` compares false with everything). -/
def PyFloat.leB : PyFloat → PyFloat → Bool
  | .finite a, .finite b => !Rat.blt b a
  | .finite _, .inf => true
  | .ninf, .finite _ => true
  | .ninf, .inf => true
  | .ninf, .ninf => true
  | .inf, .inf => true
  | _, _ => false

def isDigitC (c : Char) : Bool := '0' ≤ c && c ≤ '9'

def digitsToNat : List Char → Nat → Nat
  | [], acc => acc
  | c :: rest, acc => digitsToNat rest (acc * 10 + (c.toNat - ('0').toNat))

/-- The whitespace stripped by Python `float(...)` around its argument. -/
def floatWsChars : List Char := [' ', '\t', '\n', '\r', '\x0B', '\x0C']

/-- CPython accepts an underscore in a numeric string only between two
digits. -/
def underscoresOk (l : List Char) : Bool :=
  (List.range l.length).all fun i =>
    l.getD i ' ' != '_' ||
      (decide (0 < i) && decide (i + 1 < l.length) &&
        isDigitC (l.getD (i - 1) ' ') && isDigitC (l.getD (i + 1) ' '))

def asciiLower (c : Char) : Char :=
  if 'A' ≤ c && c ≤ 'Z' then Char.ofNat (c.toNat + 32) else c

/-- The value `ip.fp * 10^e` as an exact rational. -/
def mantissaQ (ip fp : List Char) (e : Int) : ℚ :=
  let m : Nat := digitsToNat (ip ++ fp) 0
  let ex : Int := e - (fp.length : Int)
  if 0 ≤ ex then mkRat (m * 10 ^ ex.toNat) 1 else mkRat m (10 ^ (- ex).toNat)

/-- Parse the exponent part (after mantissa digits `ip`/`fp`). -/
def parseExpPart (ip fp : List Char) : List Char → Option ℚ
  | [] => some (mantissaQ ip fp 0)
  | e :: rest2 =>
      if e == 'e' then
        let (sgn, rest3) : Int × List Char :=
          match rest2 with
          | '+' :: r => (1, r)
          | '-' :: r => (-1, r)
          | r => (1, r)
        let ed := rest3.takeWhile isDigitC
        let rest4 := rest3.dropWhile isDigitC
        if ed.isEmpty || !rest4.isEmpty then none
        else some (mantissaQ ip fp (sgn * (digitsToNat ed 0 : Int)))
      else none

/-- Parse an unsigned decimal literal `digits[.digits][e[+-]digits]`. -/
def parseFinite (l : List Char) : Option ℚ :=
  let ip := l.takeWhile isDigitC
  let rest := l.dropWhile isDigitC
  match rest with
  | '.' :: rest2 =>
      let fp := rest2.takeWhile isDigitC
      let rest3 := rest2.dropWhile isDigitC
      if ip.isEmpty && fp.isEmpty then none else parseExpPart ip fp rest3
  | _ => if ip.isEmpty then none else parseExpPart ip [] rest

/-- Python `float(s)`: `none` models a raised `ValueError`. -/
def pyFloatOfList (l0 : List Char) : Option PyFloat :=
  let l1 := (stripList (fun c => floatWsChars.contains c) l0).map asciiLower
  if !underscoresOk l1 then none
  else
    let l := l1.filter (fun c => c != '_')
    let (neg, body) : Bool × List Char :=
      match l with
      | '+' :: r => (false, r)
      | '-' :: r => (true, r)
      | r => (false, r)
    if body = ['i', 'n', 'f'] || body = ['i', 'n', 'f', 'i', 'n', 'i', 't', 'y'] then
      some (if neg then .ninf else .inf)
    else if body = ['n', 'a', 'n'] then some .nan
    else match parseFinite body with
      | none => none
      | some q => some (.finite (if neg then -q else q))

def pyFloatS (s : String) : Option PyFloat := pyFloatOfList s.data

/-! ### Python case mapping (scoped to this program's data) -/

/-- Python `str.upper`, tabulated on the character ranges reachable in
this program (ASCII, Greek letters and variant letterforms, micro sign,
sharp s); characters outside the table are unchanged.  Note
`'ß'.upper() == "SS"` expands to two characters. -/
def upperTable : List (Char × List Char) :=
  [('a', ['A']), ('b', ['B']), ('c', ['C']), ('d', ['D']), ('e', ['E']),
   ('f', ['F']), ('g', ['G']), ('h', ['H']), ('i', ['I']), ('j', ['J']),
   ('k', ['K']), ('l', ['L']), ('m', ['M']), ('n', ['N']), ('o', ['O']),
   ('p', ['P']), ('q', ['Q']), ('r', ['R']), ('s', ['S']), ('t', ['T']),
   ('u', ['U']), ('v', ['V']), ('w', ['W']), ('x', ['X']), ('y', ['Y']),
   ('z', ['Z']),
   ('α', ['Α']), ('β', ['Β']), ('γ', ['Γ']), ('δ', ['Δ']), ('ε', ['Ε']),
   ('ζ', ['Ζ']), ('η', ['Η']), ('θ', ['Θ']), ('ι', ['Ι']), ('κ', ['Κ']),
   ('λ', ['Λ']), ('μ', ['Μ']), ('ν', ['Ν']), ('ξ', ['Ξ']), ('ο', ['Ο']),
   ('π', ['Π']), ('ρ', ['Ρ']), ('ς', ['Σ']), ('σ', ['Σ']), ('τ', ['Τ']),
   ('υ', ['Υ']), ('φ', ['Φ']), ('χ', ['Χ']), ('ψ', ['Ψ']), ('ω', ['Ω']),
   ('ϑ', ['Θ']), ('ϕ', ['Φ']), ('ϖ', ['Π']), ('µ', ['Μ']), ('ß', ['S', 'S'])]

def pyUpperChar (c : Char) : List Char :=
  match List.lookup c upperTable with
  | some out => out
  | none => [c]

/-- Python `str.lower`, tabulated with the same scope as `pyUpperChar`.
The context-sensitive final-sigma rule of CPython `str.lower` is not
modelled; no σ/Σ value reaches the repair path in the theorems below. -/
def lowerTable : List (Char × Char) :=
  [('A', 'a'), ('B', 'b'), ('C', 'c'), ('D', 'd'), ('E', 'e'),
   ('F', 'f'), ('G', 'g'), ('H', 'h'), ('I', 'i'), ('J', 'j'),
   ('K', 'k'), ('L', 'l'), ('M', 'm'), ('N', 'n'), ('O', 'o'),
   ('P', 'p'), ('Q', 'q'), ('R', 'r'), ('S', 's'), ('T', 't'),
   ('U', 'u'), ('V', 'v'), ('W', 'w'), ('X', 'x'), ('Y', 'y'),
   ('Z', 'z'),
   ('Α', 'α'), ('Β', 'β'), ('Γ', 'γ'), ('Δ', 'δ'), ('Ε', 'ε'),
   ('Ζ', 'ζ'), ('Η', 'η'), ('Θ', 'θ'), ('Ι', 'ι'), ('Κ', 'κ'),
   ('Λ', 'λ'), ('Μ', 'μ'), ('Ν', 'ν'), ('Ξ', 'ξ'), ('Ο', 'ο'),
   ('Π', 'π'), ('Ρ', 'ρ'), ('Σ', 'σ'), ('Τ', 'τ'), ('Υ', 'υ'),
   ('Φ', 'φ'), ('Χ', 'χ'), ('Ψ', 'ψ'), ('Ω', 'ω')]

def pyLowerChar (c : Char) : Char :=
  match List.lookup c lowerTable with
  | some d => d
  | none => c

def concatMap (f : Char → List Char) : List Char → List Char
  | [] => []
  | c :: rest => f c ++ concatMap f rest

def pyUpper (s : String) : String := ⟨concatMap pyUpperChar s.data⟩

def pyLower (s : String) : String := ⟨s.data.map pyLowerChar⟩

/-! ### The three preprocessors of the source -/

def dummy_preprocess (value : String) : String := value

/-- `value.upper().lower().strip(" ")`. -/
def lowercase_preprocess (value : String) : String :=
  pyStripSpaces (pyLower (pyUpper value))

def empty_to_underscore_preprocess (value : String) : String :=
  if value = "" then "_" else value

inductive Preproc : Type
  | dummy : Preproc
  | lowercase : Preproc
  | emptyToUnderscore : Preproc
deriving DecidableEq

def Preproc.apply : Preproc → String → String
  | .dummy, v => dummy_preprocess v
  | .lowercase, v => lowercase_preprocess v
  | .emptyToUnderscore, v => empty_to_underscore_preprocess v

/-! ### Validators -/

/-- A column validator: a regex `fullmatch`, or one of the three numeric
range-check lambdas of the source.  `Except.error ()` models a raised
exception (from `float` on a non-numeric string). -/
inductive Validator : Type
  | regex (r : Regex) : Validator
  | magRange : Validator
  | raRange : Validator
  | decRange : Validator

def Validator.apply : Validator → String → Except Unit Bool
  | .regex r, s => .ok (r.fullmatch s)
  | .magRange, s =>
      if s = "_" then .ok true
      else
        match pyFloatS s with
        | none => .error ()
        | some f => .ok (PyFloat.ltB (.finite (-2)) f && PyFloat.ltB f (.finite 13))
  | .raRange, s =>
      match pyFloatS s with
      | none => .error ()
      | some f => .ok (PyFloat.leB (.finite 0) f && PyFloat.leB f (.finite 360))
  | .decRange, s =>
      match pyFloatS s with
      | none => .error ()
      | some f => .ok (PyFloat.leB (.finite (-90)) f && PyFloat.leB f (.finite 90))

/-! ### Column schema -/

structure ColumnSpec where
  name : String
  colStart : Nat
  colStop : Nat
  align : String
  validator : Validator
  preproc : Preproc

def width (c : ColumnSpec) : Nat := c.colStop - c.colStart + 1

/-- The `columns` table of the source, in order. -/
def columns : List ColumnSpec :=
  [⟨"Name/ASCII", 1, 17, "left", .regex nameAsciiRE, .dummy⟩,
   ⟨"Name/Diacritics", 19, 35, "left", .regex nameDiacriticsRE, .dummy⟩,
   ⟨"Designation", 37, 48, "left", .regex designationRE, .dummy⟩,
   ⟨"ID", 50, 54, "left", .regex idRE, .dummy⟩,
   ⟨"ID/Diacritics", 56, 60, "left", .regex idDiacriticsRE, .lowercase⟩,
   ⟨"Con", 62, 64, "left", .regex conRE, .dummy⟩,
   ⟨"#", 66, 69, "left", .regex hashRE, .emptyToUnderscore⟩,
   ⟨"WDS_J", 71, 80, "left", .regex wdsRE, .dummy⟩,
   ⟨"mag", 82, 86, "right", .magRange, .dummy⟩,
   ⟨"bnd", 88, 89, "right", .regex bndRE, .dummy⟩,
   ⟨"HIP", 91, 96, "right", .regex hipRE, .dummy⟩,
   ⟨"HD", 98, 103, "right", .regex hdRE, .dummy⟩,
   ⟨"RA(J2000)", 105, 114, "right", .raRange, .dummy⟩,
   ⟨"Dec(J2000)", 116, 125, "right", .decRange, .dummy⟩,
   ⟨"Date", 127, 136, "right", .regex dateRE, .dummy⟩,
   ⟨"notes", 138, 138, "right", .regex notesRE, .dummy⟩]

/-- The per-column assertions of the source: `c[1][1] >= c[1][0]` and
`c[2] == "left" or c[2] == "right"`. -/
def checkColumn (c : ColumnSpec) : Bool :=
  decide (c.colStop ≥ c.colStart) && (c.align == "left" || c.align == "right")

/-- All schema assertions: the per-column checks together with the
adjacency check `columns[i+1][1][0] - columns[i][1][1] == 2`. -/
def checkColumns (cs : List ColumnSpec) : Bool :=
  cs.all checkColumn &&
    (cs.zip cs.tail).all (fun pq => ((pq.2.colStart : Int) - (pq.1.colStop : Int)) == 2)

/-! ### Record parsing -/

/-- A validation diagnostic, mirroring the two warning prints of the
source (`column` is the printed 1-based index `k+1`). -/
inductive Diag : Type
  | preprocApplied (key : String) (column : Nat) (original preprocessed : String) : Diag
  | failedValidation (key : String) (column : Nat) (value : String) : Diag
deriving DecidableEq

def Diag.key : Diag → String
  | .preprocApplied k _ _ _ => k
  | .failedValidation k _ _ => k

/-- The source's `value = a[interval[0] - 1 : interval[1]].strip("\r\n\t ")`. -/
def fieldValue (a : String) (c : ColumnSpec) : String :=
  pyStrip (pySlice a c.colStart c.colStop)

/-- The source's `preprocessed_value = preprocessor(value)`. -/
def repairedValue (a : String) (c : ColumnSpec) : String :=
  c.preproc.apply (fieldValue a c)

/-- The substitution warning: emitted iff the preprocessor changed the
value. -/
def repairWarn (a : String) (k : Nat) (c : ColumnSpec) : List Diag :=
  if repairedValue a c = fieldValue a c then []
  else [.preprocApplied c.name (k + 1) (fieldValue a c) (repairedValue a c)]

/-- Process one field of data line `a` under column `c` (0-based index
`k`): slice, strip, validate, preprocess on failure, revalidate.  The
result is the stored value and the emitted diagnostics; `.error ()` is a
raised exception. -/
def processField (a : String) (k : Nat) (c : ColumnSpec) : Except Unit (String × List Diag) :=
  match c.validator.apply (fieldValue a c) with
  | .error e => .error e
  | .ok true => .ok (fieldValue a c, [])
  | .ok false =>
      match c.validator.apply (repairedValue a c) with
      | .error e => .error e
      | .ok true => .ok (repairedValue a c, repairWarn a k c)
      | .ok false =>
          .ok (fieldValue a c, repairWarn a k c ++ [.failedValidation c.name (k + 1) (fieldValue a c)])

/-- Pad a stored value to its column span per the alignment tag. -/
def padField (c : ColumnSpec) (v : String) : String :=
  if c.align = "left" then pyLjust v (width c) else pyRjust v (width c)

/-- The four per-line accumulators of the source loop: `entry`,
`csv_line`, `normalized_line` (still as a field list), and the emitted
diagnostics. -/
structure ParsedLine where
  entry : List (String × String)
  csvLine : List String
  normFields : List String
  diags : List Diag
deriving DecidableEq

/-- The field loop of the source over a suffix of the schema, `k` being
the 0-based index of the first column of the suffix. -/
def parseFields (a : String) : Nat → List ColumnSpec → Except Unit ParsedLine
  | _, [] => .ok ⟨[], [], [], []⟩
  | k, c :: cs =>
      match processField a k c with
      | .error e => .error e
      | .ok (v, ds) =>
          match parseFields a (k + 1) cs with
          | .error e => .error e
          | .ok p =>
              .ok ⟨(c.name, v) :: p.entry, v :: p.csvLine,
                   padField c v :: p.normFields, ds ++ p.diags⟩

/-- Parse one Data line against the full schema. -/
def processDataLine (a : String) : Except Unit ParsedLine := parseFields a 0 columns

/-! ### Line classification and the driver -/

inductive LineOut : Type
  | blank : LineOut
  | comment (s : String) : LineOut
  | data (p : ParsedLine) : LineOut
deriving DecidableEq

/-- The source's test `a[0] == "#" or a[0] == "$"`. -/
def headIsCommentChar (a : String) : Bool :=
  match a.data with
  | [] => false
  | c :: _ => c == '#' || c == '$'

/-- The source's comment normalization: `("#" + a[1:]).strip("\r\n\t ")`. -/
def commentNormalize (a : String) : String :=
  match a.data with
  | [] => a
  | _ :: rest => pyStrip ⟨'#' :: rest⟩

/-- Classify and process one raw line. -/
def processLine (a : String) : Except Unit LineOut :=
  if pyStrip a = "" then .ok .blank
  else if headIsCommentChar a then .ok (.comment (commentNormalize a))
  else
    match processDataLine a with
    | .error e => .error e
    | .ok p => .ok (.data p)

def normOfLine : LineOut → String
  | .blank => ""
  | .comment s => s
  | .data p => String.intercalate (" ") p.normFields

def jsonOfLine : LineOut → Option (List (String × String))
  | .data p => some p.entry
  | _ => none

def csvOfLine : LineOut → Option String
  | .data p => some (String.intercalate ("\t") p.csvLine)
  | _ => none

/-- The three accumulated output bodies. -/
structure Output where
  normalizedLines : List String
  jsonData : List (List (String × String))
  csvLines : List String
deriving DecidableEq

def csvHeader : String := String.intercalate ("\t") (columns.map ColumnSpec.name)

/-- Process every raw line in order, stopping at a raised exception. -/
def processAll : List String → Except Unit (List LineOut)
  | [] => .ok []
  | a :: rest =>
      match processLine a with
      | .error e => .error e
      | .ok o =>
          match processAll rest with
          | .error e => .error e
          | .ok os => .ok (o :: os)

/-- The driver: process every raw line in order and assemble the
normalized text, the JSON array and the TSV rows. -/
def processLines (ls : List String) : Except Unit Output :=
  match processAll ls with
  | .error e => .error e
  | .ok outs =>
      .ok ⟨outs.map normOfLine, outs.filterMap jsonOfLine,
           csvHeader :: outs.filterMap csvOfLine⟩

instance {ε α : Type} [DecidableEq ε] [DecidableEq α] : DecidableEq (Except ε α) := fun a b =>
  match a, b with
  | .ok x, .ok y => if h : x = y then .isTrue (by rw [h]) else .isFalse (by simp [h])
  | .error x, .error y => if h : x = y then .isTrue (by rw [h]) else .isFalse (by simp [h])
  | .ok _, .error _ => .isFalse (by simp)
  | .error _, .ok _ => .isFalse (by simp)

/-! ### String utility lemmas -/

theorem strLength_mk (l : List Char) : String.length ⟨l⟩ = l.length := rfl

theorem strData_mk (l : List Char) : (⟨l⟩ : String).data = l := rfl

theorem stripList_length_le (p : Char → Bool) (l : List Char) :
    (stripList p l).length ≤ l.length := by
  unfold stripList
  rw [List.length_reverse]
  calc ((l.dropWhile p).reverse.dropWhile p).length
      ≤ (l.dropWhile p).reverse.length := (List.dropWhile_sublist p).length_le
    _ = (l.dropWhile p).length := List.length_reverse _
    _ ≤ l.length := (List.dropWhile_sublist p).length_le

theorem stripList_sublist (p : Char → Bool) (l : List Char) :
    (stripList p l).Sublist l := by
  unfold stripList
  have h1 : ((l.dropWhile p).reverse.dropWhile p).Sublist (l.dropWhile p).reverse :=
    List.dropWhile_sublist p
  have h2 : ((l.dropWhile p).reverse.dropWhile p).reverse.Sublist (l.dropWhile p) := by
    have := h1.reverse
    rwa [List.reverse_reverse] at this
  exact h2.trans (List.dropWhile_sublist p)

theorem dropWhile_eq_self_of_stripList {p : Char → Bool} {l : List Char}
    (h : stripList p l = l) : l.dropWhile p = l := by
  have hlen : l.length ≤ (l.dropWhile p).length := by
    conv_lhs => rw [← h]
    unfold stripList
    rw [List.length_reverse]
    calc ((l.dropWhile p).reverse.dropWhile p).length
        ≤ (l.dropWhile p).reverse.length := (List.dropWhile_sublist p).length_le
      _ = (l.dropWhile p).length := List.length_reverse _
  have htw : (l.takeWhile p).length = 0 := by
    have := congrArg List.length (List.takeWhile_append_dropWhile p l)
    rw [List.length_append] at this
    omega
  have : l.takeWhile p = [] := List.eq_nil_of_length_eq_zero htw
  calc l.dropWhile p = [] ++ l.dropWhile p := rfl
    _ = l.takeWhile p ++ l.dropWhile p := by rw [this]
    _ = l := List.takeWhile_append_dropWhile p l

theorem rev_dropWhile_eq_self_of_stripList {p : Char → Bool} {l : List Char}
    (h : stripList p l = l) : l.reverse.dropWhile p = l.reverse := by
  have hd := dropWhile_eq_self_of_stripList h
  have h2 : (l.reverse.dropWhile p).reverse = l := by
    conv_rhs => rw [← h]
    unfold stripList
    rw [hd]
  have := congrArg List.reverse h2
  rwa [List.reverse_reverse] at this

theorem head_false_of_dropWhile_self {p : Char → Bool} {c : Char} {t : List Char}
    (h : (c :: t).dropWhile p = c :: t) : p c = false := by
  by_contra hc
  have hc' : p c = true := by revert hc; cases p c <;> simp
  rw [List.dropWhile_cons, if_pos hc'] at h
  have := congrArg List.length h
  have hle : (t.dropWhile p).length ≤ t.length := (List.dropWhile_sublist p).length_le
  simp at this
  omega

theorem dropWhile_append_all {p : Char → Bool} {m : List Char} (l : List Char)
    (hm : ∀ c ∈ m, p c = true) : (m ++ l).dropWhile p = l.dropWhile p := by
  induction m with
  | nil => rfl
  | cons c t ih =>
      rw [List.cons_append, List.dropWhile_cons, if_pos (hm c (by simp))]
      exact ih fun x hx => hm x (by simp [hx])

theorem dropWhile_all_nil {p : Char → Bool} {m : List Char}
    (hm : ∀ c ∈ m, p c = true) : m.dropWhile p = [] := by
  have := dropWhile_append_all (p := p) [] hm
  simpa using this

theorem stripList_append_trailing {p : Char → Bool} {l m : List Char}
    (hl : stripList p l = l) (hm : ∀ c ∈ m, p c = true) :
    stripList p (l ++ m) = l := by
  cases l with
  | nil =>
      unfold stripList
      rw [List.nil_append, dropWhile_all_nil hm]
      rfl
  | cons c t =>
      have hd := dropWhile_eq_self_of_stripList hl
      have hp : p c = false := head_false_of_dropWhile_self hd
      have hrev := rev_dropWhile_eq_self_of_stripList hl
      unfold stripList
      rw [List.cons_append, List.dropWhile_cons, if_neg (by simp [hp]),
        ← List.cons_append, List.reverse_append,
        dropWhile_append_all _ (fun x hx => hm x (by simpa using hx)), hrev,
        List.reverse_reverse]

theorem stripList_append_leading {p : Char → Bool} {l m : List Char}
    (hl : stripList p l = l) (hm : ∀ c ∈ m, p c = true) :
    stripList p (m ++ l) = l := by
  have hd := dropWhile_eq_self_of_stripList hl
  have hrev := rev_dropWhile_eq_self_of_stripList hl
  unfold stripList
  rw [dropWhile_append_all _ hm, hd, hrev, List.reverse_reverse]

theorem pyStrip_data_eq {v : String} (h : pyStrip v = v) :
    stripList isWs v.data = v.data := congrArg String.data h

theorem pyStrip_pyLjust {v : String} (w : Nat) (h : pyStrip v = v) :
    pyStrip (pyLjust v w) = v := by
  unfold pyStrip pyLjust
  rw [strData_mk,
    stripList_append_trailing (pyStrip_data_eq h)
      (fun c hc => by rcases (List.mem_replicate.mp hc) with ⟨_, rfl⟩; rfl)]

theorem pyStrip_pyRjust {v : String} (w : Nat) (h : pyStrip v = v) :
    pyStrip (pyRjust v w) = v := by
  unfold pyStrip pyRjust
  rw [strData_mk,
    stripList_append_leading (pyStrip_data_eq h)
      (fun c hc => by rcases (List.mem_replicate.mp hc) with ⟨_, rfl⟩; rfl)]

theorem pyLjust_length (v : String) (w : Nat) :
    (pyLjust v w).length = max w v.length := by
  unfold pyLjust
  rw [strLength_mk, List.length_append, List.length_replicate]
  have : v.length = v.data.length := rfl
  omega

theorem pyRjust_length (v : String) (w : Nat) :
    (pyRjust v w).length = max w v.length := by
  unfold pyRjust
  rw [strLength_mk, List.length_append, List.length_replicate]
  have : v.length = v.data.length := rfl
  omega

theorem padField_length (c : ColumnSpec) (v : String) :
    (padField c v).length = max (width c) v.length := by
  unfold padField
  split
  · exact pyLjust_length v (width c)
  · exact pyRjust_length v (width c)

theorem padField_strip (c : ColumnSpec) {v : String} (h : pyStrip v = v) :
    pyStrip (padField c v) = v := by
  unfold padField
  split
  · exact pyStrip_pyLjust (width c) h
  · exact pyStrip_pyRjust (width c) h

theorem strAppend_assoc (a b c : String) : a ++ b ++ c = a ++ (b ++ c) := by
  apply String.ext
  simp [String.data_append, List.append_assoc]

theorem intercalate_go (s : String) : ∀ (t : List String) (acc x : String),
    String.intercalate.go acc s (x :: t) = acc ++ s ++ String.intercalate.go x s t := by
  intro t
  induction t with
  | nil => intro acc x; rfl
  | cons y ys ih =>
      intro acc x
      show String.intercalate.go (acc ++ s ++ x) s (y :: ys) = _
      rw [ih (acc ++ s ++ x) y, ih x y]
      simp only [strAppend_assoc]

theorem intercalate_cons_cons (s x y : String) (t : List String) :
    String.intercalate s (x :: y :: t) = x ++ s ++ String.intercalate s (y :: t) := by
  show String.intercalate.go x s (y :: t) = _
  rw [intercalate_go]
  rfl

theorem intercalate_length (s : String) : ∀ (l : List String), l ≠ [] →
    (String.intercalate s l).length = (l.map String.length).sum + s.length * (l.length - 1) := by
  intro l
  induction l with
  | nil => intro h; cases h rfl
  | cons x t ih =>
      intro _
      cases t with
      | nil => simp [String.intercalate, String.intercalate.go]
      | cons y ys =>
          rw [intercalate_cons_cons, String.length_append, String.length_append,
            ih (by simp)]
          simp only [List.map_cons, List.sum_cons, List.length_cons, Nat.add_sub_cancel]
          ring

/-! ### Regex lemmas: characters of a matched string satisfy some
predicate of the regex -/

/-- Whether some character predicate occurring in `r` accepts `c`. -/
def Regex.existsPred : Regex → Char → Bool
  | .fail, _ => false
  | .eps, _ => false
  | .pred p, c => p c
  | .cat r₁ r₂, c => r₁.existsPred c || r₂.existsPred c
  | .alt r₁ r₂, c => r₁.existsPred c || r₂.existsPred c
  | .star r, c => r.existsPred c

/-- `r` matches no string at all. -/
def Regex.matchNone (r : Regex) : Prop := ∀ l, r.matchList l = false

theorem matchList_alt (r₁ r₂ : Regex) (l : List Char) :
    (Regex.alt r₁ r₂).matchList l = (r₁.matchList l || r₂.matchList l) := by
  induction l generalizing r₁ r₂ with
  | nil => rfl
  | cons c t ih => simpa [Regex.matchList, Regex.deriv] using ih _ _

theorem matchNone_nullable {r : Regex} (h : r.matchNone) : r.nullable = false := h []

theorem matchNone_deriv_of {r : Regex} (h : r.matchNone) (c : Char) :
    (r.deriv c).matchNone := fun l => h (c :: l)

theorem fail_matchNone : (Regex.fail).matchNone := by
  intro l
  induction l with
  | nil => rfl
  | cons c t ih => simpa [Regex.matchList, Regex.deriv] using ih

theorem matchNone_alt {r₁ r₂ : Regex} (h₁ : r₁.matchNone) (h₂ : r₂.matchNone) :
    (Regex.alt r₁ r₂).matchNone := fun l => by
  rw [matchList_alt, h₁ l, h₂ l]
  rfl

theorem matchNone_cat_left {r₂ : Regex} {r₁ : Regex} (h : r₁.matchNone) :
    (Regex.cat r₁ r₂).matchNone := by
  intro l
  induction l generalizing r₁ with
  | nil =>
      show ((Regex.cat r₁ r₂).nullable) = false
      simp [Regex.nullable, matchNone_nullable h]
  | cons c t ih =>
      show ((Regex.cat r₁ r₂).deriv c).matchList t = false
      unfold Regex.deriv
      rw [matchNone_nullable h]
      simpa using ih (matchNone_deriv_of h c)

theorem matchNone_deriv_of_not_existsPred :
    ∀ (r : Regex) (c : Char), r.existsPred c = false → (r.deriv c).matchNone := by
  intro r
  induction r with
  | fail => intro c _; exact fail_matchNone
  | eps => intro c _; exact fail_matchNone
  | pred p =>
      intro c h
      simp only [Regex.existsPred] at h
      simp only [Regex.deriv, h]
      exact fail_matchNone
  | cat r₁ r₂ ih₁ ih₂ =>
      intro c h
      simp only [Regex.existsPred, Bool.or_eq_false_iff] at h
      unfold Regex.deriv
      split
      · exact matchNone_alt (matchNone_cat_left (ih₁ c h.1)) (ih₂ c h.2)
      · exact matchNone_cat_left (ih₁ c h.1)
  | alt r₁ r₂ ih₁ ih₂ =>
      intro c h
      simp only [Regex.existsPred, Bool.or_eq_false_iff] at h
      exact matchNone_alt (ih₁ c h.1) (ih₂ c h.2)
  | star r ih =>
      intro c h
      exact matchNone_cat_left (ih c h)

theorem existsPred_deriv_le :
    ∀ (r : Regex) (c₀ c : Char), (r.deriv c₀).existsPred c = true → r.existsPred c = true := by
  intro r
  induction r with
  | fail => intro c₀ c h; exact absurd h (by simp [Regex.deriv, Regex.existsPred])
  | eps => intro c₀ c h; exact absurd h (by simp [Regex.deriv, Regex.existsPred])
  | pred p =>
      intro c₀ c h
      unfold Regex.deriv at h
      split at h <;> simp [Regex.existsPred] at h
  | cat r₁ r₂ ih₁ ih₂ =>
      intro c₀ c h
      unfold Regex.deriv at h
      split at h
      · simp only [Regex.existsPred, Bool.or_eq_true] at h ⊢
        rcases h with (h | h) | h
        · exact Or.inl (ih₁ _ _ h)
        · exact Or.inr h
        · exact Or.inr (ih₂ _ _ h)
      · simp only [Regex.existsPred, Bool.or_eq_true] at h ⊢
        rcases h with h | h
        · exact Or.inl (ih₁ _ _ h)
        · exact Or.inr h
  | alt r₁ r₂ ih₁ ih₂ =>
      intro c₀ c h
      simp only [Regex.deriv, Regex.existsPred, Bool.or_eq_true] at h ⊢
      rcases h with h | h
      · exact Or.inl (ih₁ _ _ h)
      · exact Or.inr (ih₂ _ _ h)
  | star r ih =>
      intro c₀ c h
      simp only [Regex.deriv, Regex.existsPred, Bool.or_eq_true] at h ⊢
      rcases h with h | h
      · exact ih _ _ h
      · exact h

theorem matchList_mem_existsPred :
    ∀ (l : List Char) (r : Regex), r.matchList l = true → ∀ c ∈ l, r.existsPred c = true := by
  intro l
  induction l with
  | nil => intro r _ c hc; cases hc
  | cons a t ih =>
      intro r h c hc
      have hstep : (r.deriv a).matchList t = true := h
      rcases List.mem_cons.mp hc with rfl | hc'
      · by_contra hne
        have hf : r.existsPred c = false := by revert hne; cases r.existsPred c <;> simp
        have := matchNone_deriv_of_not_existsPred r c hf t
        rw [this] at hstep
        cases hstep
      · exact existsPred_deriv_le r a c (ih _ hstep c hc')

theorem fullmatch_mem_existsPred {r : Regex} {s : String} (h : r.fullmatch s = true) :
    ∀ c ∈ s.data, r.existsPred c = true :=
  matchList_mem_existsPred s.data r h

/-! ### Case-mapping lemmas for the phi repair -/

theorem lookup_mem {α β : Type} [BEq α] [LawfulBEq α] {l : List (α × β)} {a : α} {b : β}
    (h : List.lookup a l = some b) : (a, b) ∈ l := by
  induction l with
  | nil => cases h
  | cons p t ih =>
      cases p with
      | mk k v =>
          by_cases hk : (a == k) = true
          · simp only [List.lookup, hk] at h
            injection h with h
            subst h
            have : a = k := eq_of_beq hk
            subst this
            exact List.mem_cons_self _ _
          · have hk' : (a == k) = false := by revert hk; cases a == k <;> simp
            simp only [List.lookup, hk'] at h
            exact List.mem_cons_of_mem _ (ih h)

theorem phi_notin_pyUpperChar (c : Char) : 'ϕ' ∉ pyUpperChar c := by
  unfold pyUpperChar
  cases h : List.lookup c upperTable with
  | none =>
      intro hm
      rw [List.mem_singleton] at hm
      subst hm
      rw [show List.lookup 'ϕ' upperTable = some ['Φ'] from by decide] at h
      cases h
  | some out =>
      have hmem := lookup_mem h
      have hall : ∀ p ∈ upperTable, 'ϕ' ∉ p.2 := by decide
      exact hall _ hmem

theorem pyLowerChar_eq_phi {d : Char} (h : pyLowerChar d = 'ϕ') : d = 'ϕ' := by
  unfold pyLowerChar at h
  cases hl : List.lookup d lowerTable with
  | none => rw [hl] at h; exact h
  | some e =>
      rw [hl] at h
      have hmem := lookup_mem hl
      have hall : ∀ p ∈ lowerTable, p.2 ≠ 'ϕ' := by decide
      exact absurd h (hall _ hmem)

theorem mem_concatMap {f : Char → List Char} {c : Char} : ∀ {l : List Char},
    c ∈ concatMap f l ↔ ∃ d ∈ l, c ∈ f d := by
  intro l
  induction l with
  | nil => simp [concatMap]
  | cons a t ih => simp [concatMap, ih]

theorem phi_notin_lowercase_preprocess (v : String) :
    'ϕ' ∉ (lowercase_preprocess v).data := by
  intro hm
  unfold lowercase_preprocess pyStripSpaces at hm
  rw [strData_mk] at hm
  have hm2 : 'ϕ' ∈ (pyLower (pyUpper v)).data := (stripList_sublist _ _).subset hm
  unfold pyLower at hm2
  rw [strData_mk] at hm2
  rcases List.mem_map.mp hm2 with ⟨d, hd, hde⟩
  have hdphi : d = 'ϕ' := pyLowerChar_eq_phi hde
  subst hdphi
  unfold pyUpper at hd
  rw [strData_mk] at hd
  rcases mem_concatMap.mp hd with ⟨e, _, hmem⟩
  exact phi_notin_pyUpperChar e hmem

theorem lowercase_preprocess_ne_of_phi {v : String} (h : 'ϕ' ∈ v.data) :
    lowercase_preprocess v ≠ v := by
  intro he
  have hdata := congrArg String.data he
  rw [← hdata] at h
  exact phi_notin_lowercase_preprocess v h

theorem idDiacritics_phi_fails {v : String} (h : 'ϕ' ∈ v.data) :
    idDiacriticsRE.fullmatch v = false := by
  by_contra hb
  have ht : idDiacriticsRE.fullmatch v = true := by
    revert hb; cases idDiacriticsRE.fullmatch v <;> simp
  have hp := fullmatch_mem_existsPred ht 'ϕ' h
  have hf : idDiacriticsRE.existsPred 'ϕ' = false := by decide
  rw [hf] at hp
  cases hp

/-! ### Field-processing lemmas -/

theorem validator_regex_apply (r : Regex) (s : String) :
    (Validator.regex r).apply s = .ok (r.fullmatch s) := rfl

theorem processField_ok_of_valid {a : String} (k : Nat) {c : ColumnSpec}
    (h : c.validator.apply (fieldValue a c) = .ok true) :
    processField a k c = .ok (fieldValue a c, []) := by
  unfold processField
  rw [h]

theorem processField_of_fail_id {a : String} (k : Nat) {c : ColumnSpec}
    (h : c.validator.apply (fieldValue a c) = .ok false)
    (hid : repairedValue a c = fieldValue a c) :
    processField a k c = .ok (fieldValue a c, [.failedValidation c.name (k + 1) (fieldValue a c)]) := by
  unfold processField repairWarn
  rw [hid, h, if_pos rfl, List.nil_append]

theorem processField_of_repair_ok {a : String} (k : Nat) {c : ColumnSpec}
    (h : c.validator.apply (fieldValue a c) = .ok false)
    (hne : repairedValue a c ≠ fieldValue a c)
    (h2 : c.validator.apply (repairedValue a c) = .ok true) :
    processField a k c =
      .ok (repairedValue a c,
        [.preprocApplied c.name (k + 1) (fieldValue a c) (repairedValue a c)]) := by
  unfold processField repairWarn
  rw [h, h2, if_neg hne]

theorem processField_of_repair_fail {a : String} (k : Nat) {c : ColumnSpec}
    (h : c.validator.apply (fieldValue a c) = .ok false)
    (hne : repairedValue a c ≠ fieldValue a c)
    (h2 : c.validator.apply (repairedValue a c) = .ok false) :
    processField a k c =
      .ok (fieldValue a c,
        [.preprocApplied c.name (k + 1) (fieldValue a c) (repairedValue a c),
         .failedValidation c.name (k + 1) (fieldValue a c)]) := by
  unfold processField repairWarn
  rw [h, h2, if_neg hne]
  rfl

theorem processField_diag_key {a : String} {k : Nat} {c : ColumnSpec} {vd : String × List Diag}
    (h : processField a k c = .ok vd) : ∀ d ∈ vd.2, d.key = c.name := by
  unfold processField at h
  split at h
  · cases h
  · cases h; intro d hd; cases hd
  · split at h
    · cases h
    · cases h
      intro d hd
      unfold repairWarn at hd
      split at hd
      · cases hd
      · rcases List.mem_singleton.mp hd with rfl
        rfl
    · cases h
      intro d hd
      unfold repairWarn at hd
      rcases List.mem_append.mp hd with hd' | hd'
      · split at hd'
        · cases hd'
        · rcases List.mem_singleton.mp hd' with rfl
          rfl
      · rcases List.mem_singleton.mp hd' with rfl
        rfl

theorem processField_value_src {a : String} {k : Nat} {c : ColumnSpec} {vd : String × List Diag}
    (h : processField a k c = .ok vd) :
    vd.1 = fieldValue a c ∨ vd.1 = repairedValue a c := by
  unfold processField at h
  split at h
  · cases h
  · cases h; exact Or.inl rfl
  · split at h
    · cases h
    · cases h; exact Or.inr rfl
    · cases h; exact Or.inl rfl

theorem processField_regex_ok (a : String) (k : Nat) (c : ColumnSpec) {r : Regex}
    (hr : c.validator = .regex r) : ∃ vd, processField a k c = .ok vd := by
  unfold processField
  rw [hr, validator_regex_apply, validator_regex_apply]
  cases r.fullmatch (fieldValue a c) with
  | true => exact ⟨_, rfl⟩
  | false =>
      cases r.fullmatch (repairedValue a c) with
      | true => exact ⟨_, rfl⟩
      | false => exact ⟨_, rfl⟩

theorem processField_mag_ok (a : String) (k : Nat) {c : ColumnSpec}
    (hv : c.validator = .magRange) (hp : c.preproc = .dummy)
    (h : fieldValue a c = "_" ∨ (pyFloatS (fieldValue a c)).isSome = true) :
    ∃ vd, processField a k c = .ok vd := by
  have happ : ∃ b, c.validator.apply (fieldValue a c) = .ok b := by
    rw [hv]
    simp only [Validator.apply]
    rcases h with h | h
    · rw [if_pos h]; exact ⟨_, rfl⟩
    · by_cases hu : fieldValue a c = "_"
      · rw [if_pos hu]; exact ⟨_, rfl⟩
      · rw [if_neg hu]
        cases hf : pyFloatS (fieldValue a c) with
        | none => rw [hf] at h; cases h
        | some f => exact ⟨_, rfl⟩
  have hrep : repairedValue a c = fieldValue a c := by
    unfold repairedValue
    rw [hp]
    rfl
  rcases happ with ⟨b, hb⟩
  cases b with
  | true => exact ⟨_, processField_ok_of_valid k hb⟩
  | false => exact ⟨_, processField_of_fail_id k hb hrep⟩

theorem processField_float_ok (a : String) (k : Nat) {c : ColumnSpec}
    (hv : c.validator = .raRange ∨ c.validator = .decRange) (hp : c.preproc = .dummy)
    (h : (pyFloatS (fieldValue a c)).isSome = true) :
    ∃ vd, processField a k c = .ok vd := by
  have happ : ∃ b, c.validator.apply (fieldValue a c) = .ok b := by
    cases hf : pyFloatS (fieldValue a c) with
    | none => rw [hf] at h; cases h
    | some f =>
        rcases hv with hv | hv <;> rw [hv] <;> simp only [Validator.apply] <;> rw [hf] <;>
          exact ⟨_, rfl⟩
  have hrep : repairedValue a c = fieldValue a c := by
    unfold repairedValue
    rw [hp]
    rfl
  rcases happ with ⟨b, hb⟩
  cases b with
  | true => exact ⟨_, processField_ok_of_valid k hb⟩
  | false => exact ⟨_, processField_of_fail_id k hb hrep⟩

/-! ### Parse-loop decomposition -/

theorem parseFields_ok (a : String) : ∀ (cs : List ColumnSpec) (k : Nat) (p : ParsedLine),
    parseFields a k cs = .ok p →
    ∃ rs : List (String × List Diag),
      rs.length = cs.length ∧
      (∀ i (hi : i < cs.length) (hi' : i < rs.length),
        processField a (k + i) (cs.get ⟨i, hi⟩) = .ok (rs.get ⟨i, hi'⟩)) ∧
      p.entry = List.zipWith (fun c r => (c.name, r.1)) cs rs ∧
      p.csvLine = rs.map Prod.fst ∧
      p.normFields = List.zipWith (fun c r => padField c r.1) cs rs ∧
      p.diags = (rs.map Prod.snd).flatten := by
  intro cs
  induction cs with
  | nil =>
      intro k p hp
      unfold parseFields at hp
      simp only [Except.ok.injEq] at hp
      subst hp
      exact ⟨[], rfl, fun i hi => absurd hi (by simp), rfl, rfl, rfl, rfl⟩
  | cons c cs ih =>
      intro k p hp
      unfold parseFields at hp
      cases hf : processField a k c with
      | error e => rw [hf] at hp; cases hp
      | ok vd =>
          rw [hf] at hp
          cases hrest : parseFields a (k + 1) cs with
          | error e => rw [hrest] at hp; cases hp
          | ok q =>
              rw [hrest] at hp
              simp only [Except.ok.injEq] at hp
              subst hp
              obtain ⟨rs, hlen, hget, he, hc, hn, hd⟩ := ih (k + 1) q hrest
              refine ⟨vd :: rs, by simp [hlen], ?_, by simp [he], by simp [hc],
                by simp [hn], by simp [hd]⟩
              intro i hi hi'
              cases i with
              | zero => simpa using hf
              | succ j =>
                  have harith : k + (j + 1) = k + 1 + j := by omega
                  rw [harith]
                  simpa using hget j (by simpa using hi) (by simpa using hi')

theorem parseFields_isOk (a : String) : ∀ (cs : List ColumnSpec) (k : Nat),
    (∀ i (hi : i < cs.length), ∃ vd, processField a (k + i) (cs.get ⟨i, hi⟩) = .ok vd) →
    ∃ p, parseFields a k cs = .ok p := by
  intro cs
  induction cs with
  | nil => intro k _; exact ⟨_, rfl⟩
  | cons c cs ih =>
      intro k h
      obtain ⟨vd, hvd⟩ := h 0 (by simp)
      obtain ⟨q, hq⟩ := ih (k + 1) (fun i hi => by
        have harith : k + 1 + i = k + (i + 1) := by omega
        rw [harith]
        simpa using h (i + 1) (by simpa using hi))
      refine ⟨⟨(c.name, vd.1) :: q.entry, vd.1 :: q.csvLine,
        padField c vd.1 :: q.normFields, vd.2 ++ q.diags⟩, ?_⟩
      have hvd' : processField a k c = .ok vd := by simpa using hvd
      unfold parseFields
      rw [hvd', hq]

/-! ### Driver lemmas -/

theorem processAll_ok : ∀ (ls : List String) (os : List LineOut),
    processAll ls = .ok os →
    os.length = ls.length ∧
    ∀ i (h1 : i < ls.length) (h2 : i < os.length),
      processLine (ls.get ⟨i, h1⟩) = .ok (os.get ⟨i, h2⟩) := by
  intro ls
  induction ls with
  | nil =>
      intro os h
      unfold processAll at h
      simp only [Except.ok.injEq] at h
      subst h
      exact ⟨rfl, fun i h1 => absurd h1 (by simp)⟩
  | cons l t ih =>
      intro os h
      unfold processAll at h
      cases hl : processLine l with
      | error e => rw [hl] at h; cases h
      | ok o =>
          rw [hl] at h
          cases ht : processAll t with
          | error e => rw [ht] at h; cases h
          | ok ot =>
              rw [ht] at h
              simp only [Except.ok.injEq] at h
              subst h
              obtain ⟨hlen, hget⟩ := ih ot ht
              refine ⟨by simp [hlen], ?_⟩
              intro i h1 h2
              cases i with
              | zero => simpa using hl
              | succ j => simpa using hget j (by simpa using h1) (by simpa using h2)


/-! ### Concrete test lines -/

/-- A well-formed 138-character Data line in the catalog's layout. -/
def acamarLine : String :=
  "Acamar            Acamar            HR 897       tet01 θ1    Eri A    02583-4018  2.88  V  13847  18622 044.565531 -40.304672 2016-07-20  "

/-- `acamarLine` with an empty `#` field (columns 66-69 blank). -/
def hashEmptyLine : String :=
  "Acamar            Acamar            HR 897       tet01 θ1    Eri      02583-4018  2.88  V  13847  18622 044.565531 -40.304672 2016-07-20  "

/-- `acamarLine` with the non-numeric string `abc` in the mag span. -/
def magBadLine : String :=
  "Acamar            Acamar            HR 897       tet01 θ1    Eri A    02583-4018   abc  V  13847  18622 044.565531 -40.304672 2016-07-20  "

/-- The first 137 characters of `acamarLine`: one character short of the
last column span. -/
def shortLine : String :=
  "Acamar            Acamar            HR 897       tet01 θ1    Eri A    02583-4018  2.88  V  13847  18622 044.565531 -40.304672 2016-07-20 "

/-- `acamarLine` with the mag value left-aligned inside its right-aligned
span (`2.88 ` instead of ` 2.88` at columns 82-86): every field still
validates and no repair fires. -/
def misalignedLine : String :=
  "Acamar            Acamar            HR 897       tet01 θ1    Eri A    02583-4018 2.88   V  13847  18622 044.565531 -40.304672 2016-07-20  "

/-- `acamarLine` with `ID/Diacritics` field `ϕϕϕϕ` (four U+03D5). -/
def phiManyLine : String :=
  "Acamar            Acamar            HR 897       tet01 ϕϕϕϕ  Eri A    02583-4018  2.88  V  13847  18622 044.565531 -40.304672 2016-07-20  "

/-- `acamarLine` with `ID/Diacritics` field `ϕ` (one U+03D5). -/
def phiOneLine : String :=
  "Acamar            Acamar            HR 897       tet01 ϕ     Eri A    02583-4018  2.88  V  13847  18622 044.565531 -40.304672 2016-07-20  "

/-- `acamarLine` with `ID/Diacritics` field `ß1234`: the repair expands
`ß` to `ss`, giving a six-character value in a five-character column. -/
def eszettLine : String :=
  "Acamar            Acamar            HR 897       tet01 ß1234 Eri A    02583-4018  2.88  V  13847  18622 044.565531 -40.304672 2016-07-20  "

/-! ### Claim C4: schema assertions -/

theorem zip_tail_all_iff {α : Type} (p : α × α → Bool) : ∀ (l : List α),
    ((l.zip l.tail).all p = true ↔
      ∀ i (h : i + 1 < l.length), p (l.get ⟨i, by omega⟩, l.get ⟨i + 1, h⟩) = true) := by
  intro l
  induction l with
  | nil => simp
  | cons a t ih =>
      cases t with
      | nil => simp
      | cons b t' =>
          rw [show (a :: b :: t').tail = b :: t' from rfl, List.zip_cons_cons, List.all_cons,
            Bool.and_eq_true]
          constructor
          · rintro ⟨h1, h2⟩ i hi
            cases i with
            | zero => exact h1
            | succ j => simpa using ih.mp h2 j (by simpa using hi)
          · intro h
            refine ⟨h 0 (by simp), ih.mpr fun j hj => ?_⟩
            simpa using h (j + 1) (by simpa using hj)

/-- Claim C4: at construction time the schema validator checks every
ColumnSpec (span end at least span start, alignment one of the two
recognized tags) and every adjacent pair (`next.start - prev.end == 2`);
the checks are exactly these conditions, and the actual schema passes
them all, so the assertions do not fire and the system runs. -/
theorem claim4_schema_checks :
    checkColumns columns = true ∧
    ∀ cs : List ColumnSpec, checkColumns cs = true ↔
      ((∀ c ∈ cs, c.colStop ≥ c.colStart ∧ (c.align = "left" ∨ c.align = "right")) ∧
       ∀ i (h : i + 1 < cs.length),
         ((cs.get ⟨i + 1, h⟩).colStart : Int) - ((cs.get ⟨i, by omega⟩).colStop : Int) = 2) := by
  constructor
  · decide
  · intro cs
    unfold checkColumns
    rw [Bool.and_eq_true, List.all_eq_true, zip_tail_all_iff]
    constructor
    · rintro ⟨h1, h2⟩
      refine ⟨fun c hc => ?_, fun i h => by simpa using h2 i h⟩
      have hc' := h1 c hc
      unfold checkColumn at hc'
      rw [Bool.and_eq_true, Bool.or_eq_true] at hc'
      rcases hc' with ⟨ha, hb⟩
      refine ⟨by simpa using ha, ?_⟩
      rcases hb with hb | hb
      · exact Or.inl (by simpa using hb)
      · exact Or.inr (by simpa using hb)
    · rintro ⟨h1, h2⟩
      refine ⟨fun c hc => ?_, fun i h => by simpa using h2 i h⟩
      rcases h1 c hc with ⟨ha, hb⟩
      unfold checkColumn
      rw [Bool.and_eq_true, Bool.or_eq_true]
      refine ⟨by simpa using ha, ?_⟩
      rcases hb with hb | hb
      · exact Or.inl (by simpa using hb)
      · exact Or.inr (by simpa using hb)

/-! ### Claim C7: TSV/JSON field parity -/

theorem map_snd_zipWith_entry : ∀ (cs : List ColumnSpec) (rs : List (String × List Diag)),
    rs.length = cs.length →
    (List.zipWith (fun c r => (c.name, r.1)) cs rs).map Prod.snd = rs.map Prod.fst := by
  intro cs
  induction cs with
  | nil => intro rs h; rw [List.length_eq_zero.mp h]; rfl
  | cons c cs ih =>
      intro rs h
      cases rs with
      | nil => cases h
      | cons r rs => simpa using ih rs (by simpa using h)

theorem map_fst_zipWith_entry : ∀ (cs : List ColumnSpec) (rs : List (String × List Diag)),
    rs.length = cs.length →
    (List.zipWith (fun c r => (c.name, r.1)) cs rs).map Prod.fst = cs.map ColumnSpec.name := by
  intro cs
  induction cs with
  | nil => intro rs h; rw [List.length_eq_zero.mp h]; rfl
  | cons c cs ih =>
      intro rs h
      cases rs with
      | nil => cases h
      | cons r rs => simpa using ih rs (by simpa using h)

/-- Claim C7: for every Data line that parses, the JSON object's values,
the TSV row's fields and the raw trimmed values stored in the Record are
the same list, and the JSON keys are the column names in schema order.
(Values are `String`s by construction of the embedding, matching the
spec's "never numeric types".) -/
theorem claim7_parity (a : String) (p : ParsedLine) (h : processDataLine a = .ok p) :
    p.entry.map Prod.snd = p.csvLine ∧ p.entry.map Prod.fst = columns.map ColumnSpec.name := by
  obtain ⟨rs, hlen, hget, he, hc, hn, hd⟩ := parseFields_ok a columns 0 p h
  rw [he, hc]
  exact ⟨map_snd_zipWith_entry columns rs hlen, map_fst_zipWith_entry columns rs hlen⟩

/-- Witness for C7 at the concrete line `acamarLine`. -/
theorem claim7_witness :
    (processDataLine acamarLine).isOk = true ∧
    (∀ p, processDataLine acamarLine = .ok p →
      p.entry.map Prod.snd = p.csvLine ∧ p.entry.map Prod.fst = columns.map ColumnSpec.name) :=
  ⟨by decide, fun p hp => claim7_parity acamarLine p hp⟩

/-! ### Claim C5: validation-with-fallback semantics -/

/-- The `#` column of the schema (index 6). -/
def hashColumn : ColumnSpec := ⟨"#", 66, 69, "left", .regex hashRE, .emptyToUnderscore⟩

theorem hashColumn_mem : hashColumn ∈ columns := by
  unfold columns hashColumn
  exact .tail _ (.tail _ (.tail _ (.tail _ (.tail _ (.tail _ (.head _))))))

theorem validator_ok_of_mem {a : String} {c : ColumnSpec} (hc : c ∈ columns)
    (hne : repairedValue a c ≠ fieldValue a c) :
    ∃ b, c.validator.apply (repairedValue a c) = .ok b := by
  simp only [columns, List.mem_cons, List.not_mem_nil, or_false] at hc
  rcases hc with hc | hc | hc | hc | hc | hc | hc | hc | hc | hc | hc | hc | hc | hc | hc | hc <;>
    subst hc <;>
    first
      | exact absurd rfl hne
      | exact ⟨_, rfl⟩

/-- Claim C5: for a field whose raw value fails validation, an identity
repair yields an unrepaired-failure diagnostic with the original value
kept; a changed repair yields a substitution diagnostic, the repaired
value being adopted exactly when it validates and the original kept
otherwise. -/
theorem claim5_repair (a : String) (k : Nat) (c : ColumnSpec) (hc : c ∈ columns)
    (hfail : c.validator.apply (fieldValue a c) = .ok false) :
    (repairedValue a c = fieldValue a c →
      processField a k c =
        .ok (fieldValue a c, [.failedValidation c.name (k + 1) (fieldValue a c)])) ∧
    (repairedValue a c ≠ fieldValue a c →
      (c.validator.apply (repairedValue a c) = .ok true →
        processField a k c =
          .ok (repairedValue a c,
            [.preprocApplied c.name (k + 1) (fieldValue a c) (repairedValue a c)])) ∧
      (c.validator.apply (repairedValue a c) ≠ .ok true →
        processField a k c =
          .ok (fieldValue a c,
            [.preprocApplied c.name (k + 1) (fieldValue a c) (repairedValue a c),
             .failedValidation c.name (k + 1) (fieldValue a c)]))) := by
  refine ⟨fun hid => processField_of_fail_id k hfail hid,
    fun hne => ⟨fun h2 => processField_of_repair_ok k hfail hne h2, fun h2 => ?_⟩⟩
  obtain ⟨b, hb⟩ := validator_ok_of_mem hc hne
  cases b with
  | false => exact processField_of_repair_fail k hfail hne hb
  | true => exact absurd hb h2

/-- Witness for C5: the empty `#` field of `hashEmptyLine` fails
validation, is repaired to `_`, and the repaired value is adopted with
one substitution diagnostic. -/
theorem claim5_witness :
    hashColumn.validator.apply (fieldValue hashEmptyLine hashColumn) = .ok false ∧
    processField hashEmptyLine 6 hashColumn =
      .ok ("_", [.preprocApplied ("#") 7 ("") ("_")]) :=
  ⟨by decide,
    ((claim5_repair hashEmptyLine 6 hashColumn hashColumn_mem (by decide)).2
      (by decide)).1 (by decide)⟩

/-! ### Claim C10: the empty-to-underscore repair of the hash column -/

/-- Claim C10: a Data line whose `#` slice trims to the empty string is
repaired to the sentinel `_`, which validates; the Record entry, the TSV
field, the JSON value (the entry pair) and the normalized field all show
`_`, a repair diagnostic is emitted, and the empty-to-underscore
preprocessor is attached to the `#` column only. -/
theorem claim10_hash_empty (a : String) (p : ParsedLine)
    (hempty : pyStrip (pySlice a 66 69) = "")
    (h : processDataLine a = .ok p) :
    p.entry.getD 6 ("", "") = ("#", "_") ∧
    p.csvLine.getD 6 "" = "_" ∧
    p.normFields.getD 6 "" = "_   " ∧
    Diag.preprocApplied ("#") 7 ("") ("_") ∈ p.diags ∧
    (∀ c ∈ columns, (c.preproc = .emptyToUnderscore ↔ c.name = "#")) := by
  obtain ⟨rs, hlen, hget, he, hc, hn, hd⟩ := parseFields_ok a columns 0 p h
  have h6 : (6 : Nat) < columns.length := by decide
  have h6' : (6 : Nat) < rs.length := by rw [hlen]; decide
  have hpf := hget 6 h6 h6'
  have hcol : columns.get ⟨6, h6⟩ = hashColumn := rfl
  rw [hcol] at hpf
  have hfv : fieldValue a hashColumn = "" := hempty
  have hfail : hashColumn.validator.apply (fieldValue a hashColumn) = .ok false := by
    rw [hfv]; decide
  have hrep : repairedValue a hashColumn = "_" := by
    unfold repairedValue
    rw [hfv]
    rfl
  have hne : repairedValue a hashColumn ≠ fieldValue a hashColumn := by
    rw [hrep, hfv]; decide
  have hval : hashColumn.validator.apply (repairedValue a hashColumn) = .ok true := by
    rw [hrep]; decide
  have hcomp := processField_of_repair_ok 6 hfail hne hval
  rw [hrep, hfv] at hcomp
  rw [show (0 : Nat) + 6 = 6 from rfl] at hpf
  rw [hcomp] at hpf
  simp only [Except.ok.injEq] at hpf
  have hrs6 : rs.get ⟨6, h6'⟩ = ("_", [.preprocApplied ("#") 7 ("") ("_")]) := hpf.symm
  refine ⟨?_, ?_, ?_, ?_, by decide⟩
  · have hl : 6 < (List.zipWith (fun (c : ColumnSpec) (r : String × List Diag) =>
        (c.name, r.1)) columns rs).length := by
      rw [List.length_zipWith, hlen]
      decide
    rw [he, List.getD_eq_getElem _ _ hl, List.getElem_zipWith]
    have h66 : rs[6] = rs.get ⟨6, h6'⟩ := rfl
    rw [h66, hrs6]
    rfl
  · have hl : 6 < (List.map Prod.fst rs).length := by
      rw [List.length_map, hlen]
      decide
    rw [hc, List.getD_eq_getElem _ _ hl, List.getElem_map]
    have h66 : rs[6] = rs.get ⟨6, h6'⟩ := rfl
    rw [h66, hrs6]
  · have hl : 6 < (List.zipWith (fun (c : ColumnSpec) (r : String × List Diag) =>
        padField c r.1) columns rs).length := by
      rw [List.length_zipWith, hlen]
      decide
    rw [hn, List.getD_eq_getElem _ _ hl, List.getElem_zipWith]
    have h66 : rs[6] = rs.get ⟨6, h6'⟩ := rfl
    rw [h66, hrs6]
    rfl
  · rw [hd]
    refine List.mem_flatten.mpr ⟨rs.get ⟨6, h6'⟩ |>.2, ?_, ?_⟩
    · exact List.mem_map.mpr ⟨rs.get ⟨6, h6'⟩, List.get_mem rs 6 h6', rfl⟩
    · rw [hrs6]
      exact List.mem_singleton.mpr rfl

/-- Witness for C10 at the concrete line `hashEmptyLine`. -/
theorem claim10_witness :
    pyStrip (pySlice hashEmptyLine 66 69) = "" ∧
    (∀ p, processDataLine hashEmptyLine = .ok p →
      p.entry.getD 6 ("", "") = ("#", "_") ∧
      p.csvLine.getD 6 "" = "_" ∧
      p.normFields.getD 6 "" = "_   " ∧
      Diag.preprocApplied ("#") 7 ("") ("_") ∈ p.diags ∧
      (∀ c ∈ columns, (c.preproc = .emptyToUnderscore ↔ c.name = "#"))) ∧
    (processDataLine hashEmptyLine).isOk = true :=
  ⟨by decide, fun p hp => claim10_hash_empty hashEmptyLine p (by decide) hp, by decide⟩

/-! ### Claim C1: validation permissiveness vs numeric exceptions -/

/-- Parsing completes (no exception) on every Data line whose numeric
columns hold float-convertible strings (`_` allowed for mag). -/
theorem processDataLine_ok_of_numeric (a : String)
    (hmag : pyStrip (pySlice a 82 86) = "_" ∨
      (pyFloatS (pyStrip (pySlice a 82 86))).isSome = true)
    (hra : (pyFloatS (pyStrip (pySlice a 105 114))).isSome = true)
    (hdec : (pyFloatS (pyStrip (pySlice a 116 125))).isSome = true) :
    ∃ p, processDataLine a = .ok p := by
  apply parseFields_isOk
  intro i hi
  have h16 : columns.length = 16 := rfl
  rw [h16] at hi
  interval_cases i <;>
    first
      | exact processField_regex_ok a _ _ rfl
      | exact processField_mag_ok a _ rfl rfl hmag
      | exact processField_float_ok a _ (Or.inl rfl) rfl hra
      | exact processField_float_ok a _ (Or.inr rfl) rfl hdec

/-- Counterexample to C1 as stated: the Data line `magBadLine` carries
the non-numeric string `abc` in the mag span; the mag validator calls
`float("abc")`, which raises, so parsing aborts with an exception instead
of logging a non-fatal validation failure. -/
theorem claim1_counterexample : processLine magBadLine = .error () := by decide

/-- Amended C1: parsing completes and yields a Record for every Data line
whose numeric columns (mag, RA, Dec) are float-convertible (mag may also
be the sentinel `_`); all regex-validated fields are handled non-fatally
however malformed.  A non-numeric string in a numeric column raises
instead (see the counterexample). -/
theorem claim1_numeric_parse_completes (a : String)
    (hmag : pyStrip (pySlice a 82 86) = "_" ∨
      (pyFloatS (pyStrip (pySlice a 82 86))).isSome = true)
    (hra : (pyFloatS (pyStrip (pySlice a 105 114))).isSome = true)
    (hdec : (pyFloatS (pyStrip (pySlice a 116 125))).isSome = true) :
    ∃ p, processDataLine a = .ok p :=
  processDataLine_ok_of_numeric a hmag hra hdec

/-- Witness for C1 at the concrete line `acamarLine`. -/
theorem claim1_witness :
    ((pyFloatS (pyStrip (pySlice acamarLine 82 86))).isSome = true) ∧
    ((pyFloatS (pyStrip (pySlice acamarLine 105 114))).isSome = true) ∧
    ((pyFloatS (pyStrip (pySlice acamarLine 116 125))).isSome = true) ∧
    ∃ p, processDataLine acamarLine = .ok p :=
  ⟨by decide, by decide, by decide,
    claim1_numeric_parse_completes acamarLine (Or.inr (by decide)) (by decide) (by decide)⟩

/-! ### Claim C2: short-line safety -/

/-- The `notes` column of the schema (index 15). -/
def notesColumn : ColumnSpec := ⟨"notes", 138, 138, "right", .regex notesRE, .dummy⟩

/-- Counterexample to C2 as stated: the 137-character line `shortLine`
(one character short of the last column span) parses without crash, the
final field is the empty string — but NO diagnostic at all is logged,
because the empty string satisfies the notes pattern `[*@]?`. -/
theorem claim2_counterexample :
    shortLine.length = 137 ∧
    (processDataLine shortLine).map (fun p => (p.entry.getD 15 ("", ""), p.diags)) =
      .ok (("notes", ""), ([] : List Diag)) :=
  ⟨by decide, by decide⟩

/-- Amended C2: slicing is length-safe.  A Data line one character short
of the last column span parses without crash (given float-convertible
numeric columns, cf. C1), its final field is the empty string, that
empty string validates against the notes pattern, and consequently no
diagnostic is logged for the notes field. -/
theorem claim2_short_line_safe (a : String) (hlen : a.length = 137)
    (hmag : pyStrip (pySlice a 82 86) = "_" ∨
      (pyFloatS (pyStrip (pySlice a 82 86))).isSome = true)
    (hra : (pyFloatS (pyStrip (pySlice a 105 114))).isSome = true)
    (hdec : (pyFloatS (pyStrip (pySlice a 116 125))).isSome = true) :
    ∃ p, processDataLine a = .ok p ∧
      p.entry.getD 15 ("", "") = ("notes", "") ∧
      ∀ d ∈ p.diags, d.key ≠ "notes" := by
  obtain ⟨p, hp⟩ := processDataLine_ok_of_numeric a hmag hra hdec
  obtain ⟨rs, hlenrs, hget, he, hc, hn, hd⟩ := parseFields_ok a columns 0 p hp
  have h15 : (15 : Nat) < columns.length := by decide
  have h15' : (15 : Nat) < rs.length := by rw [hlenrs]; decide
  have hfv : fieldValue a notesColumn = "" := by
    unfold fieldValue pySlice
    have hdrop : a.data.drop 137 = [] := List.drop_eq_nil_of_le (by
      have hl : a.data.length = 137 := hlen
      omega)
    show pyStrip ⟨(a.data.drop 137).take 1⟩ = ""
    rw [hdrop]
    rfl
  have hvalid : notesColumn.validator.apply (fieldValue a notesColumn) = .ok true := by
    rw [hfv]; decide
  have hcomp := processField_ok_of_valid (a := a) 15 hvalid
  rw [hfv] at hcomp
  have hpf := hget 15 h15 h15'
  have hcol : columns.get ⟨15, h15⟩ = notesColumn := rfl
  rw [hcol, show (0 : Nat) + 15 = 15 from rfl, hcomp] at hpf
  simp only [Except.ok.injEq] at hpf
  have hrs15 : rs.get ⟨15, h15'⟩ = ("", []) := hpf.symm
  refine ⟨p, hp, ?_, ?_⟩
  · have hl : 15 < (List.zipWith (fun (c : ColumnSpec) (r : String × List Diag) =>
        (c.name, r.1)) columns rs).length := by
      rw [List.length_zipWith, hlenrs]
      decide
    rw [he, List.getD_eq_getElem _ _ hl, List.getElem_zipWith]
    have h1515 : rs[15] = rs.get ⟨15, h15'⟩ := rfl
    rw [h1515, hrs15]
    rfl
  · intro d hd'
    rw [hd] at hd'
    rcases List.mem_flatten.mp hd' with ⟨l, hl, hdl⟩
    rcases List.mem_map.mp hl with ⟨r, hr, rfl⟩
    rcases List.mem_iff_get.mp hr with ⟨⟨j, hj⟩, rfl⟩
    have hj16 : j < columns.length := by rw [← hlenrs]; exact hj
    have hkey := processField_diag_key (hget j hj16 hj) d hdl
    by_cases hj15 : j = 15
    · subst hj15
      rw [show (⟨15, hj⟩ : Fin rs.length) = ⟨15, h15'⟩ from rfl, hrs15] at hdl
      simp at hdl
    · have hkey' : d.key = (columns.getD j notesColumn).name := by
        rw [List.getD_eq_getElem _ _ hj16]
        exact hkey
      rw [hkey']
      have h16 : j < 16 := by
        have h16' : columns.length = 16 := rfl
        omega
      interval_cases j <;> first | exact absurd rfl hj15 | decide

/-- Witness for C2 at the concrete 137-character line `shortLine`. -/
theorem claim2_witness :
    shortLine.length = 137 ∧
    ∃ p, processDataLine shortLine = .ok p ∧
      p.entry.getD 15 ("", "") = ("notes", "") ∧
      ∀ d ∈ p.diags, d.key ≠ "notes" :=
  ⟨by decide,
    claim2_short_line_safe shortLine (by decide) (Or.inr (by decide)) (by decide) (by decide)⟩

/-! ### Claim C6: line classification and pass-through -/

/-- A line that reaches the field parser: neither blank nor comment. -/
def isDataLine (l : String) : Bool := !(pyStrip l == "") && !headIsCommentChar l

theorem processLine_blank {l : String} (h : pyStrip l = "") :
    processLine l = .ok .blank := by
  unfold processLine
  rw [if_pos h]

theorem processLine_comment {l : String} (h : pyStrip l ≠ "")
    (hc : headIsCommentChar l = true) :
    processLine l = .ok (.comment (commentNormalize l)) := by
  unfold processLine
  rw [if_neg h, if_pos hc]

theorem processLine_data {l : String} (h1 : pyStrip l ≠ "")
    (h2 : headIsCommentChar l = false) :
    processLine l =
      match processDataLine l with
      | .error e => .error e
      | .ok p => .ok (.data p) := by
  unfold processLine
  rw [if_neg h1, h2]
  simp

theorem commentNormalize_eq {l : String} (h : pyStrip l ≠ "") :
    commentNormalize l = pyStrip ⟨'#' :: l.data.tail⟩ := by
  unfold commentNormalize
  cases hl : l.data with
  | nil =>
      exfalso
      apply h
      unfold pyStrip
      rw [hl]
      rfl
  | cons c t => rfl

theorem processAll_counts : ∀ (ls : List String) (outs : List LineOut),
    processAll ls = .ok outs →
    (outs.filterMap jsonOfLine).length = (ls.filter isDataLine).length ∧
    (outs.filterMap csvOfLine).length = (ls.filter isDataLine).length := by
  intro ls
  induction ls with
  | nil =>
      intro outs h
      unfold processAll at h
      simp only [Except.ok.injEq] at h
      subst h
      exact ⟨rfl, rfl⟩
  | cons l t ih =>
      intro outs h
      unfold processAll at h
      cases hl : processLine l with
      | error e => rw [hl] at h; cases h
      | ok o =>
          rw [hl] at h
          cases ht : processAll t with
          | error e => rw [ht] at h; cases h
          | ok ot =>
              rw [ht] at h
              simp only [Except.ok.injEq] at h
              subst h
              obtain ⟨ihj, ihc⟩ := ih ot ht
              by_cases hb : pyStrip l = ""
              · rw [processLine_blank hb] at hl
                injection hl with hl
                subst hl
                simp [jsonOfLine, csvOfLine, isDataLine, hb, ihj, ihc]
              · by_cases hcm : headIsCommentChar l = true
                · rw [processLine_comment hb hcm] at hl
                  injection hl with hl
                  subst hl
                  simp [jsonOfLine, csvOfLine, isDataLine, hb, hcm, ihj, ihc]
                · have hcm' : headIsCommentChar l = false := by
                    revert hcm; cases headIsCommentChar l <;> simp
                  rw [processLine_data hb hcm'] at hl
                  cases hdl : processDataLine l with
                  | error e => rw [hdl] at hl; cases hl
                  | ok p =>
                      rw [hdl] at hl
                      injection hl with hl
                      subst hl
                      simp [jsonOfLine, csvOfLine, isDataLine, hb, hcm', ihj, ihc]

/-- Counterexample to C6 as stated: the Comment line `"# x "` is not
passed through unchanged — the code also strips trailing whitespace. -/
theorem claim6_counterexample :
    processLine ("# x ") = .ok (.comment ("# x")) ∧ ("# x " : String) ≠ ("# x" : String) :=
  ⟨by decide, by decide⟩

/-- Amended C6: the normalized output has exactly the same line count and
ordering as the input; a Blank line (empty after trimming) becomes the
empty line, a Comment line (first character `#` or `$`) is passed through
with the leading character replaced by `#` and trailing whitespace
stripped, and Blank/Comment lines contribute no JSON object and no TSV
row (the TSV has exactly one header row plus one row per Data line). -/
theorem claim6_line_mapping (ls : List String) (out : Output)
    (h : processLines ls = .ok out) :
    out.normalizedLines.length = ls.length ∧
    (∀ i (h1 : i < ls.length) (h2 : i < out.normalizedLines.length),
      (pyStrip (ls.get ⟨i, h1⟩) = "" → out.normalizedLines.get ⟨i, h2⟩ = "") ∧
      (pyStrip (ls.get ⟨i, h1⟩) ≠ "" → headIsCommentChar (ls.get ⟨i, h1⟩) = true →
        out.normalizedLines.get ⟨i, h2⟩ = pyStrip ⟨'#' :: (ls.get ⟨i, h1⟩).data.tail⟩)) ∧
    out.jsonData.length = (ls.filter isDataLine).length ∧
    out.csvLines.length = (ls.filter isDataLine).length + 1 := by
  unfold processLines at h
  cases hall : processAll ls with
  | error e => rw [hall] at h; cases h
  | ok outs =>
      rw [hall] at h
      simp only [Except.ok.injEq] at h
      subst h
      obtain ⟨hlen, hget⟩ := processAll_ok ls outs hall
      obtain ⟨hjson, hcsv⟩ := processAll_counts ls outs hall
      refine ⟨by simpa using hlen, ?_, by simpa using hjson, by simp [hcsv]⟩
      intro i h1 h2
      have h2' : i < outs.length := by simpa using h2
      have hpl := hget i h1 h2'
      have hni : (outs.map normOfLine).get ⟨i, h2⟩ = normOfLine (outs.get ⟨i, h2'⟩) := by
        show (outs.map normOfLine)[i] = normOfLine outs[i]
        rw [List.getElem_map]
      constructor
      · intro hb
        rw [processLine_blank hb] at hpl
        injection hpl with hpl
        rw [hni, ← hpl]
        rfl
      · intro hb hc
        rw [processLine_comment hb hc] at hpl
        injection hpl with hpl
        rw [hni, ← hpl]
        exact commentNormalize_eq hb

/-- Concrete three-line input: a comment, a blank line, a Data line. -/
def demoLines : List String := ["# note", "   ", acamarLine]

/-- Witness for C6 at `demoLines`. -/
theorem claim6_witness :
    (processLines demoLines).isOk = true ∧
    ∀ out, processLines demoLines = .ok out →
      out.normalizedLines.length = demoLines.length ∧
      (∀ i (h1 : i < demoLines.length) (h2 : i < out.normalizedLines.length),
        (pyStrip (demoLines.get ⟨i, h1⟩) = "" → out.normalizedLines.get ⟨i, h2⟩ = "") ∧
        (pyStrip (demoLines.get ⟨i, h1⟩) ≠ "" →
          headIsCommentChar (demoLines.get ⟨i, h1⟩) = true →
          out.normalizedLines.get ⟨i, h2⟩ =
            pyStrip ⟨'#' :: (demoLines.get ⟨i, h1⟩).data.tail⟩)) ∧
      out.jsonData.length = (demoLines.filter isDataLine).length ∧
      out.csvLines.length = (demoLines.filter isDataLine).length + 1 :=
  ⟨by decide, fun out h => claim6_line_mapping demoLines out h⟩

/-! ### Claim C8: the phi repair on ID/Diacritics -/

/-- The `ID/Diacritics` column of the schema (index 4). -/
def idDiacColumn : ColumnSpec :=
  ⟨"ID/Diacritics", 56, 60, "left", .regex idDiacriticsRE, .lowercase⟩

theorem flatten_filter_nil (p : Diag → Bool) : ∀ (L : List (List Diag)),
    (∀ i (hi : i < L.length), (L.get ⟨i, hi⟩).filter p = []) →
    L.flatten.filter p = [] := by
  intro L
  induction L with
  | nil => intro _; rfl
  | cons x t ih =>
      intro h
      have hx : List.filter p x = [] := h 0 (by simp)
      rw [List.flatten_cons, List.filter_append, hx,
        ih fun i hi => by simpa using h (i + 1) (by simpa using hi)]
      rfl

theorem flatten_filter_single (p : Diag → Bool) : ∀ (L : List (List Diag)) (j : Nat)
    (hj : j < L.length),
    (∀ i (hi : i < L.length), i ≠ j → (L.get ⟨i, hi⟩).filter p = []) →
    L.flatten.filter p = (L.get ⟨j, hj⟩).filter p := by
  intro L
  induction L with
  | nil => intro j hj; cases hj
  | cons x t ih =>
      intro j hj h
      rw [List.flatten_cons, List.filter_append]
      cases j with
      | zero =>
          rw [flatten_filter_nil p t
            fun i hi => by simpa using h (i + 1) (by simpa using hi) (by simp)]
          show List.filter p x ++ [] = List.filter p x
          simp
      | succ j' =>
          have hx : List.filter p x = [] := h 0 (by simp) (by simp)
          have hrec := ih j' (by simpa using hj)
            fun i hi hij => by simpa using h (i + 1) (by simpa using hi) (by simpa using hij)
          rw [hx, hrec]
          rfl

/-- Counterexample to C8 as stated: the Data line `phiManyLine` has
`ID/Diacritics` field `ϕϕϕϕ`; the repair rewrites it to `φφφφ`, but four
letters do not match `[α-ωb-zAY]{0,3}\d{0,4}`, so the repaired value does
NOT validate: the Record keeps the original value and TWO diagnostics are
logged, not one. -/
theorem claim8_counterexample :
    (processDataLine phiManyLine).map (fun p => (p.entry.getD 4 ("", ""), p.diags)) =
      .ok (("ID/Diacritics", "ϕϕϕϕ"),
        [.preprocApplied ("ID/Diacritics") 5 ("ϕϕϕϕ") ("φφφφ"),
         .failedValidation ("ID/Diacritics") 5 ("ϕϕϕϕ")]) := by decide

/-- Amended C8: for every Data line whose `ID/Diacritics` field contains
`ϕ` (U+03D5), direct validation fails and the repair (upper-then-lower
case folding) changes the value, rewriting `ϕ` to `φ` (U+03C6); when the
repaired value validates — as it does for the catalog's actual values,
e.g. a bare `ϕ` — the Record stores the repaired value and exactly one
diagnostic (the repair substitution) is logged for the field. -/
theorem claim8_phi_repair (a : String) (p : ParsedLine)
    (hphi : 'ϕ' ∈ (fieldValue a idDiacColumn).data)
    (h : processDataLine a = .ok p) :
    idDiacColumn.validator.apply (fieldValue a idDiacColumn) = .ok false ∧
    repairedValue a idDiacColumn ≠ fieldValue a idDiacColumn ∧
    (idDiacColumn.validator.apply (repairedValue a idDiacColumn) = .ok true →
      p.entry.getD 4 ("", "") = ("ID/Diacritics", repairedValue a idDiacColumn) ∧
      p.diags.filter (fun d => d.key == "ID/Diacritics") =
        [.preprocApplied ("ID/Diacritics") 5 (fieldValue a idDiacColumn)
          (repairedValue a idDiacColumn)]) := by
  have hfail : idDiacColumn.validator.apply (fieldValue a idDiacColumn) = .ok false := by
    show (Validator.regex idDiacriticsRE).apply (fieldValue a idDiacColumn) = .ok false
    rw [validator_regex_apply, idDiacritics_phi_fails hphi]
  have hne : repairedValue a idDiacColumn ≠ fieldValue a idDiacColumn :=
    lowercase_preprocess_ne_of_phi hphi
  refine ⟨hfail, hne, fun hval => ?_⟩
  obtain ⟨rs, hlen, hget, he, hc, hn, hd⟩ := parseFields_ok a columns 0 p h
  have h4 : (4 : Nat) < columns.length := by decide
  have h4' : (4 : Nat) < rs.length := by rw [hlen]; decide
  have hpf := hget 4 h4 h4'
  have hcol : columns.get ⟨4, h4⟩ = idDiacColumn := rfl
  rw [hcol, show (0 : Nat) + 4 = 4 from rfl,
    processField_of_repair_ok 4 hfail hne hval] at hpf
  simp only [Except.ok.injEq] at hpf
  have hrs4 : rs.get ⟨4, h4'⟩ =
      (repairedValue a idDiacColumn,
       [.preprocApplied ("ID/Diacritics") 5 (fieldValue a idDiacColumn)
         (repairedValue a idDiacColumn)]) := hpf.symm
  constructor
  · have hl : 4 < (List.zipWith (fun (c : ColumnSpec) (r : String × List Diag) =>
        (c.name, r.1)) columns rs).length := by
      rw [List.length_zipWith, hlen]
      decide
    rw [he, List.getD_eq_getElem _ _ hl, List.getElem_zipWith]
    have h44 : rs[4] = rs.get ⟨4, h4'⟩ := rfl
    rw [h44, hrs4]
    rfl
  · rw [hd]
    have hlenL : (rs.map Prod.snd).length = 16 := by rw [List.length_map, hlen]; rfl
    have h4L : (4 : Nat) < (rs.map Prod.snd).length := by rw [hlenL]; decide
    rw [flatten_filter_single _ (rs.map Prod.snd) 4 h4L ?side]
    case side =>
      intro i hi hi4
      have hi' : i < rs.length := by rw [← List.length_map rs Prod.snd]; exact hi
      have hmapi : (rs.map Prod.snd).get ⟨i, hi⟩ = (rs.get ⟨i, hi'⟩).2 := by
        show (rs.map Prod.snd)[i] = rs[i].2
        rw [List.getElem_map]
      rw [hmapi]
      rw [List.filter_eq_nil_iff]
      intro d hdmem
      have hi16 : i < columns.length := by rw [← hlen]; exact hi'
      have hkey := processField_diag_key (hget i hi16 hi') d hdmem
      have hkey' : d.key = (columns.getD i notesColumn).name := by
        rw [List.getD_eq_getElem _ _ hi16]
        exact hkey
      simp only [hkey']
      have hi16' : i < 16 := by
        have hcl : columns.length = 16 := rfl
        omega
      interval_cases i <;> first | exact absurd rfl hi4 | decide
    · have hmap4 : (rs.map Prod.snd).get ⟨4, h4L⟩ = (rs.get ⟨4, h4'⟩).2 := by
        show (rs.map Prod.snd)[4] = rs[4].2
        rw [List.getElem_map]
      rw [hmap4, hrs4]
      rfl

/-- Witness for C8 at the concrete line `phiOneLine` (field `ϕ`). -/
theorem claim8_witness :
    'ϕ' ∈ (fieldValue phiOneLine idDiacColumn).data ∧
    (processDataLine phiOneLine).isOk = true ∧
    ∀ p, processDataLine phiOneLine = .ok p →
      idDiacColumn.validator.apply (fieldValue phiOneLine idDiacColumn) = .ok false ∧
      repairedValue phiOneLine idDiacColumn ≠ fieldValue phiOneLine idDiacColumn ∧
      (idDiacColumn.validator.apply (repairedValue phiOneLine idDiacColumn) = .ok true →
        p.entry.getD 4 ("", "") = ("ID/Diacritics", repairedValue phiOneLine idDiacColumn) ∧
        p.diags.filter (fun d => d.key == "ID/Diacritics") =
          [.preprocApplied ("ID/Diacritics") 5 (fieldValue phiOneLine idDiacColumn)
            (repairedValue phiOneLine idDiacColumn)]) :=
  ⟨by decide, by decide, fun p hp => claim8_phi_repair phiOneLine p (by decide) hp⟩

/-! ### Claim C9: normalized line length -/

theorem fieldValue_length_le (a : String) (c : ColumnSpec) (h1 : 1 ≤ c.colStart) :
    (fieldValue a c).length ≤ width c := by
  have hs := stripList_length_le isWs
    ((a.data.drop (c.colStart - 1)).take (c.colStop - (c.colStart - 1)))
  have ht : ((a.data.drop (c.colStart - 1)).take (c.colStop - (c.colStart - 1))).length ≤
      c.colStop - (c.colStart - 1) := by
    rw [List.length_take]
    exact min_le_left _ _
  unfold fieldValue width pySlice pyStrip
  simp only [strData_mk, strLength_mk]
  omega

theorem sum_pad_lengths : ∀ (cs : List ColumnSpec) (vs : List String),
    vs.length = cs.length →
    (∀ i (h1 : i < vs.length) (h2 : i < cs.length),
      (vs.get ⟨i, h1⟩).length ≤ width (cs.get ⟨i, h2⟩)) →
    ((List.zipWith padField cs vs).map String.length).sum = (cs.map width).sum := by
  intro cs
  induction cs with
  | nil => intro vs _ _; rw [List.zipWith_nil_left]; rfl
  | cons c cs ih =>
      intro vs hlen hfit
      cases vs with
      | nil => cases hlen
      | cons v vs =>
          rw [List.zipWith_cons_cons, List.map_cons, List.sum_cons, List.map_cons,
            List.sum_cons, padField_length,
            Nat.max_eq_left (by simpa using hfit 0 (by simp) (by simp)),
            ih vs (by simpa using hlen)
              fun i hi1 hi2 => by simpa using hfit (i + 1) (by simpa using hi1) (by simpa using hi2)]

/-- Counterexample to C9 as stated: `eszettLine` parses to completion,
its `ß1234` field is repaired to the six-character `ss1234` (wider than
the five-character column), and the normalized line has 139 characters,
not 138. -/
theorem claim9_counterexample :
    (processDataLine eszettLine).map
      (fun p => (String.intercalate (" ") p.normFields).length) = .ok 139 := by decide

/-- Amended C9: every stored value obtained directly from the line slice
fits its column width, and whenever all 16 stored values fit their
widths (i.e. no adopted repair lengthened a field beyond its column) the
normalized fixed-width line has exactly 138 characters.  An adopted
repair can exceed the width (see the counterexample), lengthening the
line. -/
theorem claim9_line_length (a : String) (p : ParsedLine)
    (h : processDataLine a = .ok p) :
    (∀ i (h1 : i < p.csvLine.length) (h2 : i < columns.length),
      p.csvLine.get ⟨i, h1⟩ = fieldValue a (columns.get ⟨i, h2⟩) →
      (p.csvLine.get ⟨i, h1⟩).length ≤ width (columns.get ⟨i, h2⟩)) ∧
    ((∀ i (h1 : i < p.csvLine.length) (h2 : i < columns.length),
      (p.csvLine.get ⟨i, h1⟩).length ≤ width (columns.get ⟨i, h2⟩)) →
      (String.intercalate (" ") p.normFields).length = 138) := by
  obtain ⟨rs, hlen, hget, he, hc, hn, hd⟩ := parseFields_ok a columns 0 p h
  constructor
  · intro i h1 h2 hv
    rw [hv]
    have hmem := List.get_mem columns i h2
    have hstart : ∀ c ∈ columns, 1 ≤ c.colStart := by decide
    exact fieldValue_length_le a _ (hstart _ hmem)
  · intro hfit
    have hnf : p.normFields = List.zipWith padField columns p.csvLine := by
      rw [hn, hc, List.zipWith_map_right]
    have hvslen : p.csvLine.length = 16 := by
      rw [hc, List.length_map, hlen]
      rfl
    have hzlen : (List.zipWith padField columns p.csvLine).length = 16 := by
      rw [List.length_zipWith, hvslen]
      rfl
    have hnonnil : List.zipWith padField columns p.csvLine ≠ [] :=
      List.length_pos.mp (by rw [hzlen]; decide)
    rw [hnf, intercalate_length _ _ hnonnil,
      sum_pad_lengths columns p.csvLine (by rw [hvslen]; rfl) hfit, hzlen]
    decide

/-- Witness for C9 at the concrete line `acamarLine` (all fields fit, so
the normalized line has exactly 138 characters). -/
theorem claim9_witness :
    (processDataLine acamarLine).isOk = true ∧
    ∀ p, processDataLine acamarLine = .ok p →
      ((∀ i (h1 : i < p.csvLine.length) (h2 : i < columns.length),
        (p.csvLine.get ⟨i, h1⟩).length ≤ width (columns.get ⟨i, h2⟩)) →
        (String.intercalate (" ") p.normFields).length = 138) :=
  ⟨by decide, fun p hp => (claim9_line_length acamarLine p hp).2⟩

/-! ### Claim C3: round-trip of the fixed-width rendering -/

/-- The fixed-width rendering of a list of field values: each value
padded per its column's alignment, fields joined with single spaces
(exactly what the source emits as the normalized line). -/
def renderLine (vs : List String) : String :=
  String.intercalate (" ") (List.zipWith padField columns vs)

/-- Spans of a schema suffix laid out from absolute 1-indexed position
`pos`: each column starts where expected and the next starts two places
after the previous stop. -/
def schemaAtB : Nat → List ColumnSpec → Bool
  | _, [] => true
  | pos, c :: rest =>
      (c.colStart == pos) && decide (pos ≤ c.colStop) && schemaAtB (c.colStop + 2) rest

/-- The character list underlying a single-space join. -/
def joinData : List String → List Char
  | [] => []
  | [v] => v.data
  | v :: rest => v.data ++ ' ' :: joinData rest

theorem intercalate_data : ∀ (l : List String),
    (String.intercalate (" ") l).data = joinData l := by
  intro l
  induction l with
  | nil => rfl
  | cons x t ih =>
      cases t with
      | nil => rfl
      | cons y ys =>
          rw [intercalate_cons_cons, String.data_append, String.data_append, ih]
          show x.data ++ [' '] ++ joinData (y :: ys) = x.data ++ ' ' :: joinData (y :: ys)
          simp

theorem slice_joinData : ∀ (cs : List ColumnSpec) (ps : List String) (pos : Nat)
    (pre : List Char),
    pre.length = pos - 1 → 1 ≤ pos →
    schemaAtB pos cs = true →
    (∀ i (h1 : i < ps.length) (h2 : i < cs.length),
      (ps.get ⟨i, h1⟩).data.length = width (cs.get ⟨i, h2⟩)) →
    ∀ j (hj1 : j < cs.length) (hj2 : j < ps.length),
      pySlice ⟨pre ++ joinData ps⟩ (cs.get ⟨j, hj1⟩).colStart (cs.get ⟨j, hj1⟩).colStop =
        ps.get ⟨j, hj2⟩ := by
  intro cs
  induction cs with
  | nil => intro ps pos pre _ _ _ _ j hj1 _; cases hj1
  | cons c cs ih =>
      intro ps pos pre hpre hpos hschema hw j hj1 hj2
      cases ps with
      | nil => cases hj2
      | cons p ps' =>
          rw [show schemaAtB pos (c :: cs) =
              ((c.colStart == pos) && decide (pos ≤ c.colStop) &&
                schemaAtB (c.colStop + 2) cs) from rfl,
            Bool.and_eq_true, Bool.and_eq_true, beq_iff_eq, decide_eq_true_iff] at hschema
          obtain ⟨⟨hstart, hstop⟩, hrest⟩ := hschema
          have hw0 : p.data.length = c.colStop - c.colStart + 1 := by
            simpa [width] using hw 0 (by simp) (by simp)
          cases j with
          | zero =>
              show pySlice ⟨pre ++ joinData (p :: ps')⟩ c.colStart c.colStop = p
              unfold pySlice
              rw [strData_mk]
              have hdrop : (pre ++ joinData (p :: ps')).drop (c.colStart - 1) =
                  joinData (p :: ps') := by
                rw [hstart, ← hpre]
                exact List.drop_left pre _
              rw [hdrop]
              have htake : c.colStop - (c.colStart - 1) = p.data.length := by omega
              rw [htake]
              cases ps' with
              | nil =>
                  show (⟨(p.data).take p.data.length⟩ : String) = p
                  rw [List.take_length]
              | cons q qs =>
                  show (⟨(p.data ++ ' ' :: joinData (q :: qs)).take p.data.length⟩ : String) = p
                  rw [List.take_left]
          | succ j' =>
              cases ps' with
              | nil =>
                  exfalso
                  rw [List.length_singleton] at hj2
                  omega
              | cons q qs =>
                  have hre : pre ++ joinData (p :: q :: qs) =
                      (pre ++ p.data ++ [' ']) ++ joinData (q :: qs) := by
                    show pre ++ (p.data ++ ' ' :: joinData (q :: qs)) = _
                    simp [List.append_assoc]
                  have hpre' : (pre ++ p.data ++ [' ']).length = (c.colStop + 2) - 1 := by
                    rw [List.length_append, List.length_append]
                    simp only [List.length_singleton]
                    omega
                  have hgoal := ih (q :: qs) (c.colStop + 2) (pre ++ p.data ++ [' '])
                    hpre' (by omega) hrest
                    (fun i h1 h2 => by
                      simpa using hw (i + 1) (by simpa using h1) (by simpa using h2))
                    j' (by simpa using hj1) (by simpa using hj2)
                  rw [show ((c :: cs).get ⟨j' + 1, hj1⟩) = cs.get ⟨j', by simpa using hj1⟩
                      from rfl,
                    show ((p :: q :: qs).get ⟨j' + 1, hj2⟩) =
                      (q :: qs).get ⟨j', by simpa using hj2⟩ from rfl, hre]
                  exact hgoal

/-- Counterexample to C3 as stated: every field of `misalignedLine`
passes validation with no repair (`diags = []`), yet its fixed-width
re-rendering is `acamarLine` (the properly aligned layout), which
differs from `misalignedLine` even after trailing-whitespace
normalization — the mag value sits left-aligned inside its right-aligned
span. -/
theorem claim3_counterexample :
    (processDataLine misalignedLine).map
      (fun p => (p.diags, String.intercalate (" ") p.normFields)) =
      .ok ([], acamarLine) ∧
    pyRstrip acamarLine ≠ pyRstrip misalignedLine :=
  ⟨by decide, by decide⟩

/-- Amended C3: the round trip holds for Data lines that are themselves
fixed-width renderings: if sixteen trimmed values each fit and validate
in their columns, then parsing the rendered line stores exactly those
values, emits no diagnostic, and re-rendering reproduces the line
byte-for-byte (hence also after trailing-whitespace normalization).  For
a line whose valid field values sit misaligned inside their spans the
round trip fails (see the counterexample). -/
theorem claim3_roundtrip (vs : List String)
    (hlen : vs.length = 16)
    (htrim : ∀ v ∈ vs, pyStrip v = v)
    (hfit : ∀ i, i < 16 → (vs.getD i "").length ≤ width (columns.getD i notesColumn))
    (hvalid : ∀ i, i < 16 →
      (columns.getD i notesColumn).validator.apply (vs.getD i "") = .ok true) :
    ∃ p, processDataLine (renderLine vs) = .ok p ∧
      p.csvLine = vs ∧ p.diags = [] ∧
      String.intercalate (" ") p.normFields = renderLine vs := by
  have hclen : columns.length = 16 := rfl
  -- the padded fields
  have hpslen : (List.zipWith padField columns vs).length = 16 := by
    rw [List.length_zipWith, hlen, hclen]
    decide
  -- widths of the padded fields
  have hw : ∀ i (h1 : i < (List.zipWith padField columns vs).length)
      (h2 : i < columns.length),
      ((List.zipWith padField columns vs).get ⟨i, h1⟩).data.length =
        width (columns.get ⟨i, h2⟩) := by
    intro i h1 h2
    have hi16 : i < 16 := by omega
    have hiv : i < vs.length := by omega
    show (List.zipWith padField columns vs)[i].data.length = width columns[i]
    rw [List.getElem_zipWith]
    have hdl : (padField columns[i] vs[i]).data.length = (padField columns[i] vs[i]).length :=
      rfl
    rw [hdl, padField_length]
    apply Nat.max_eq_left
    have := hfit i hi16
    rwa [List.getD_eq_getElem vs _ hiv, List.getD_eq_getElem columns _ h2] at this
  -- slices of the rendered line recover the padded fields
  have hslice : ∀ j (hj1 : j < columns.length) (hj2 : j < (List.zipWith padField columns vs).length),
      pySlice (renderLine vs) (columns.get ⟨j, hj1⟩).colStart (columns.get ⟨j, hj1⟩).colStop =
        (List.zipWith padField columns vs).get ⟨j, hj2⟩ := by
    intro j hj1 hj2
    have hmk : renderLine vs = ⟨[] ++ joinData (List.zipWith padField columns vs)⟩ := by
      apply String.ext
      show (String.intercalate (" ") (List.zipWith padField columns vs)).data = _
      rw [strData_mk, List.nil_append]
      exact intercalate_data _
    rw [hmk]
    exact slice_joinData columns (List.zipWith padField columns vs) 1 [] rfl (by omega)
      (by decide) hw j hj1 hj2
  -- the trimmed slice of each column is the original value
  have hfv : ∀ j (hj : j < columns.length),
      fieldValue (renderLine vs) (columns.get ⟨j, hj⟩) = vs.getD j "" := by
    intro j hj
    have hjv : j < vs.length := by omega
    have hj2 : j < (List.zipWith padField columns vs).length := by omega
    unfold fieldValue
    rw [hslice j hj hj2]
    have hz : (List.zipWith padField columns vs).get ⟨j, hj2⟩ =
        padField (columns.get ⟨j, hj⟩) (vs.get ⟨j, hjv⟩) := by
      show (List.zipWith padField columns vs)[j] = _
      rw [List.getElem_zipWith]
      rfl
    rw [hz, padField_strip _ (htrim _ (List.get_mem vs j hjv)),
      List.getD_eq_getElem vs _ hjv]
    rfl
  -- every field validates directly
  have hpfield : ∀ j (hj : j < columns.length),
      processField (renderLine vs) j (columns.get ⟨j, hj⟩) = .ok (vs.getD j "", []) := by
    intro j hj
    have hj16 : j < 16 := by omega
    have happ : (columns.get ⟨j, hj⟩).validator.apply
        (fieldValue (renderLine vs) (columns.get ⟨j, hj⟩)) = .ok true := by
      rw [hfv j hj]
      have := hvalid j hj16
      rwa [List.getD_eq_getElem columns _ hj] at this
    have := processField_ok_of_valid (a := renderLine vs) j happ
    rw [hfv j hj] at this
    exact this
  obtain ⟨p, hp⟩ := parseFields_isOk (renderLine vs) columns 0
    (fun i hi => ⟨_, by rw [show (0 : Nat) + i = i from Nat.zero_add i]; exact hpfield i hi⟩)
  obtain ⟨rs, hlenrs, hget, he, hc, hn, hd⟩ := parseFields_ok (renderLine vs) columns 0 p hp
  have hrs : ∀ i (hi : i < rs.length), rs.get ⟨i, hi⟩ = (vs.getD i "", []) := by
    intro i hi
    have hic : i < columns.length := by omega
    have h1 := hget i hic hi
    rw [show (0 : Nat) + i = i from Nat.zero_add i, hpfield i hic] at h1
    simpa only [Except.ok.injEq] using h1.symm
  have hcsv : p.csvLine = vs := by
    rw [hc]
    apply List.ext_get
    · rw [List.length_map, hlenrs, hclen, hlen]
    · intro n h1 h2
      have hnr : n < rs.length := by simpa using h1
      show (rs.map Prod.fst)[n] = vs.get ⟨n, h2⟩
      rw [List.getElem_map]
      have : rs[n] = rs.get ⟨n, hnr⟩ := rfl
      rw [this, hrs n hnr, List.getD_eq_getElem vs _ h2]
      rfl
  refine ⟨p, hp, hcsv, ?_, ?_⟩
  · rw [hd]
    rw [List.eq_nil_iff_forall_not_mem]
    intro d hd'
    rcases List.mem_flatten.mp hd' with ⟨l, hl, hdl⟩
    rcases List.mem_map.mp hl with ⟨r, hr, rfl⟩
    rcases List.mem_iff_get.mp hr with ⟨⟨i, hi⟩, rfl⟩
    rw [hrs i hi] at hdl
    simp at hdl
  · rw [hn]
    have hzz : List.zipWith (fun (c : ColumnSpec) (r : String × List Diag) =>
        padField c r.1) columns rs = List.zipWith padField columns vs := by
      apply List.ext_get
      · rw [List.length_zipWith, List.length_zipWith, hlenrs, hlen, hclen]
      · intro n h1 h2
        have hnr : n < rs.length := by
          rw [List.length_zipWith, hlenrs] at h1
          omega
        have hnv : n < vs.length := by
          rw [List.length_zipWith, hlen] at h2
          omega
        show (List.zipWith (fun (c : ColumnSpec) (r : String × List Diag) =>
          padField c r.1) columns rs)[n] = (List.zipWith padField columns vs)[n]
        rw [List.getElem_zipWith, List.getElem_zipWith]
        have h1' : rs[n] = rs.get ⟨n, hnr⟩ := rfl
        rw [h1', hrs n hnr, List.getD_eq_getElem vs _ hnv]
    rw [hzz]
    rfl

/-- The sixteen field values of `acamarLine`. -/
def acamarFields : List String :=
  ["Acamar", "Acamar", "HR 897", "tet01", "θ1", "Eri", "A", "02583-4018",
   "2.88", "V", "13847", "18622", "044.565531", "-40.304672", "2016-07-20", ""]

/-- Witness for C3 at the concrete field list `acamarFields`. -/
theorem claim3_witness :
    acamarFields.length = 16 ∧
    ∃ p, processDataLine (renderLine acamarFields) = .ok p ∧
      p.csvLine = acamarFields ∧ p.diags = [] ∧
      String.intercalate (" ") p.normFields = renderLine acamarFields :=
  ⟨by decide,
    claim3_roundtrip acamarFields (by decide) (by decide) (by decide) (by decide)⟩

end IauStarnames
